import Mathlib

/-!
# Verification of the embedded-bacnet application-data-value codec

Shallow embedding of `src/application_protocol/primitives/data_value.rs`
(the application-data-value layer of a BACnet/IP codec) together with the
support modules it uses (byte cursor, tag codec, unsigned-integer helpers,
protocol enumerations).  The support modules are not part of the provided
sources, so they are modelled from the specification document; every such
definition carries a doc comment starting `Modelled from the spec:`.

Conventions:
* bytes are `Nat`s `< 256`; buffers are `List Nat`;
* Rust `u8`/`u16`/`u32` struct fields are `Nat`s, with boundedness
  hypotheses supplied by the theorems where it matters;
* machine-arithmetic wrapping is explicit (`% 2^32` etc.);
* a Rust function that can `panic!`/`assert!`/`unwrap`/`todo!` is embedded
  with result type `Res α`, which distinguishes a normal return (`.ok`),
  a returned typed error (`.err`, Rust `Err(...)`), and abrupt
  termination (`.panic`, any Rust panic);
* IEEE-754 floats are represented by their bit patterns: the code only
  moves their big-endian bytes, it never computes with them.
-/

/-- Typed error values of the crate (`common/error.rs` is not under `src/`).
Modelled from the spec: §7 lists the error kinds; the sources under `src/`
construct only `Error::InvalidValue`. -/
inductive Error where
  | invalidValue : String → Error
  | unimplemented : String → Error
  deriving DecidableEq

/-- Outcome of running a fallible / panicking Rust computation. -/
inductive Res (α : Type) where
  | ok : α → Res α
  | err : Error → Res α
  | panic : String → Res α
  deriving DecidableEq

namespace Res

def bind : Res α → (α → Res β) → Res β
  | .ok a, f => f a
  | .err e, _ => .err e
  | .panic m, _ => .panic m

/-- Did the computation end in a panic (abrupt termination)? -/
def isPanic : Res α → Bool
  | .panic _ => true
  | _ => false

/-- Did the computation return a typed error value? -/
def isErr : Res α → Bool
  | .err _ => true
  | _ => false

@[simp] theorem bind_ok (a : α) (f : α → Res β) : bind (.ok a) f = f a := rfl
@[simp] theorem bind_err (e : Error) (f : α → Res β) :
    bind (.err e) f = .err e := rfl
@[simp] theorem bind_panic (m : String) (f : α → Res β) :
    bind (.panic m) f = .panic m := rfl

end Res

/-- Modelled from the spec: §4.1 byte cursor reader — "sequential consume
from a borrowed buffer — read one byte, read N fixed bytes, borrow a slice
of length L and advance".  Its read methods return plain values (the call
sites in `src/` use `reader.read_byte(buf)` as a `u8` directly), and §7
records that the source uses abrupt termination on decode paths, so an
out-of-bounds read is a panic, not a typed error. -/
structure Reader where
  index : Nat
  deriving DecidableEq

namespace Reader

/-- Modelled from the spec: read one byte and advance; panics past the end. -/
def read_byte (r : Reader) (buf : List Nat) : Res (Nat × Reader) :=
  match buf.drop r.index with
  | [] => .panic "read_byte: past end of buffer"
  | b :: _ => .ok (b, ⟨r.index + 1⟩)

/-- Modelled from the spec: read four fixed bytes (`read_bytes::<4>`);
panics when fewer than four bytes remain. -/
def read_bytes4 (r : Reader) (buf : List Nat) :
    Res ((Nat × Nat × Nat × Nat) × Reader) :=
  match buf.drop r.index with
  | b0 :: b1 :: b2 :: b3 :: _ => .ok ((b0, b1, b2, b3), ⟨r.index + 4⟩)
  | _ => .panic "read_bytes: past end of buffer"

/-- Modelled from the spec: borrow a slice of length `len` and advance;
panics when the buffer holds fewer than `len` further bytes. -/
def read_slice (r : Reader) (len : Nat) (buf : List Nat) :
    Res (List Nat × Reader) :=
  if r.index + len ≤ buf.length then
    .ok ((buf.drop r.index).take len, ⟨r.index + len⟩)
  else
    .panic "read_slice: past end of buffer"

end Reader

/-- Modelled from the spec: §4.3 — "Unsigned integers use the narrowest
big-endian encoding that fits the value (1, 2, 3, or 4 bytes)";
`common/helper.rs` is not under `src/`.  `get_len_u32` picks that minimal
length for a `u32`. -/
def get_len_u32 (v : Nat) : Nat :=
  if v < 256 then 1
  else if v < 65536 then 2
  else if v < 16777216 then 3
  else 4

/-- Modelled from the spec: §4.3 big-endian unsigned encoding at a declared
length of 1–4 bytes (`common/helper.rs` is not under `src/`). -/
def encode_unsigned (len : Nat) (v : Nat) : List Nat :=
  match len with
  | 1 => [v % 256]
  | 2 => [v / 256 % 256, v % 256]
  | 3 => [v / 65536 % 256, v / 256 % 256, v % 256]
  | _ => [v / 16777216 % 256, v / 65536 % 256, v / 256 % 256, v % 256]

/-- Modelled from the spec: §4.3 — "decode must accept exactly the declared
length": read `len` bytes big-endian (`common/helper.rs` is not under
`src/`). -/
def decode_unsigned (len : Nat) (r : Reader) (buf : List Nat) :
    Res (Nat × Reader) :=
  match len with
  | 1 => r.read_byte buf
  | 2 =>
    (r.read_byte buf).bind fun (b0, r) =>
    (r.read_byte buf).bind fun (b1, r) =>
    .ok (b0 * 256 + b1, r)
  | 3 =>
    (r.read_byte buf).bind fun (b0, r) =>
    (r.read_byte buf).bind fun (b1, r) =>
    (r.read_byte buf).bind fun (b2, r) =>
    .ok ((b0 * 256 + b1) * 256 + b2, r)
  | 4 =>
    (r.read_byte buf).bind fun (b0, r) =>
    (r.read_byte buf).bind fun (b1, r) =>
    (r.read_byte buf).bind fun (b2, r) =>
    (r.read_byte buf).bind fun (b3, r) =>
    .ok (((b0 * 256 + b1) * 256 + b2) * 256 + b3, r)
  | _ => .panic "decode_unsigned: unsupported length"

/-- `u32` wrapping subtraction of 1, as performed by `(len - 1)` on a `u32`
in release mode (the custom bit-string arm of `BitString::decode`). -/
def u32SubOne (len : Nat) : Nat :=
  (len + 4294967295) % 4294967296

/-- Big-endian bytes of a `u32` (`to_be_bytes`). -/
def beBytes4 (v : Nat) : List Nat :=
  [v / 16777216 % 256, v / 65536 % 256, v / 256 % 256, v % 256]

/-- Big-endian recombination of four bytes (`from_be_bytes`). -/
def fromBe4 (b0 b1 b2 b3 : Nat) : Nat :=
  ((b0 * 256 + b1) * 256 + b2) * 256 + b3

/-! ## Protocol enumerations (`common/spec.rs`, not under `src/`)

The sources under `src/` obtain each of these via a `TryFrom<u32>` whose
failure they `unwrap`, and re-extract the code with `as u32`.  Only the
code set matters to the claims; the sets are modelled from the spec. -/

/-- Modelled from the spec: §3 — a "binary state" value; two states
(inactive/active, wire codes 0 and 1). -/
inductive Binary where
  | inactive
  | active
  deriving DecidableEq

def Binary.toCode : Binary → Nat
  | .inactive => 0
  | .active => 1

def Binary.tryFrom : Nat → Option Binary
  | 0 => some .inactive
  | 1 => some .active
  | _ => none

/-- Modelled from the spec: engineering units — an enumeration with a fixed
legal range of codes; the standard's unit codes 0–254 are taken as the
legal set.  Represented by the raw code. -/
structure EngineeringUnits where
  code : Nat
  deriving DecidableEq

def EngineeringUnits.tryFrom (n : Nat) : Option EngineeringUnits :=
  if n ≤ 254 then some ⟨n⟩ else none

/-- Modelled from the spec: §3 — "object-type (10-bit code)".  Represented
by the raw code; the binary object types used by the decode dispatch carry
their standard codes (binary-input 3, binary-output 4, binary-value 5). -/
structure ObjectType where
  code : Nat
  deriving DecidableEq

def ObjectType.objectBinaryInput : ObjectType := ⟨3⟩
def ObjectType.objectBinaryOutput : ObjectType := ⟨4⟩
def ObjectType.objectBinaryValue : ObjectType := ⟨5⟩
def ObjectType.objectDevice : ObjectType := ⟨8⟩
def ObjectType.objectAnalogInput : ObjectType := ⟨0⟩

def ObjectType.tryFrom (n : Nat) : Option ObjectType :=
  if n < 1024 then some ⟨n⟩ else none

/-- Is this one of the three binary object types matched by the
present-value dispatch in `ApplicationDataValue::decode`? -/
def ObjectType.isBinary (t : ObjectType) : Bool :=
  t = ObjectType.objectBinaryInput || t = ObjectType.objectBinaryOutput ||
    t = ObjectType.objectBinaryValue

/-- Modelled from the spec: event state enumeration (codes 0–4). -/
structure EventState where
  code : Nat
  deriving DecidableEq

def EventState.tryFrom (n : Nat) : Option EventState :=
  if n ≤ 4 then some ⟨n⟩ else none

/-- Modelled from the spec: notify type enumeration (codes 0–2). -/
structure NotifyType where
  code : Nat
  deriving DecidableEq

def NotifyType.tryFrom (n : Nat) : Option NotifyType :=
  if n ≤ 2 then some ⟨n⟩ else none

/-- Modelled from the spec: logging type enumeration (codes 0–2). -/
structure LoggingType where
  code : Nat
  deriving DecidableEq

def LoggingType.tryFrom (n : Nat) : Option LoggingType :=
  if n ≤ 2 then some ⟨n⟩ else none

/-- Modelled from the spec: `FlagSet<StatusFlags>` — the four standard
status flags (in-alarm, fault, overridden, out-of-service) occupy bits
0–3, so a byte is a legal flag set exactly when it is `< 16`.
`FlagSet::new` rejects bytes with unknown bits; `bits()` returns the raw
byte. -/
structure StatusFlagSet where
  bits : Nat
  deriving DecidableEq

def StatusFlagSet.new (b : Nat) : Option StatusFlagSet :=
  if b < 16 then some ⟨b⟩ else none

/-- Modelled from the spec: `FlagSet<LogBufferResultFlags>` — the three
result flags (first-item, last-item, more-items) occupy bits 0–2, so a
byte is legal exactly when it is `< 8`. -/
structure LogFlagSet where
  bits : Nat
  deriving DecidableEq

def LogFlagSet.new (b : Nat) : Option LogFlagSet :=
  if b < 8 then some ⟨b⟩ else none

/-- Modelled from the spec: property identifiers (`common/property_id.rs`
is not under `src/`).  The variants matched by name in
`data_value.rs` are listed; `other n` stands for every remaining
property id (the `_` arms). -/
inductive PropertyId where
  | propUnits
  | propPresentValue
  | propObjectType
  | propEventState
  | propNotifyType
  | propLoggingType
  | propStatusFlags
  | propLogBuffer
  | other : Nat → PropertyId
  deriving DecidableEq

/-- Modelled from the spec: §3 — "Object Id: {object-type (10-bit code),
instance (22-bit number)} packed into a 32-bit field per the protocol's
fixed bit layout" (`common/object_id.rs` is not under `src/`). -/
structure ObjectId where
  object_type : ObjectType
  id : Nat
  deriving DecidableEq

namespace ObjectId

def LEN : Nat := 4

/-- Modelled from the spec: pack the 10-bit type code above the 22-bit
instance and write the 32-bit field big-endian. -/
def encode (o : ObjectId) (w : List Nat) : List Nat :=
  w ++ beBytes4 (o.object_type.code * 4194304 + o.id % 4194304)

/-- Modelled from the spec: read the declared length as a big-endian
unsigned, unpack the 10/22-bit split, and look the type code up
(`ObjectId::decode` returns a `Result`). -/
def decode (len : Nat) (r : Reader) (buf : List Nat) :
    Res (ObjectId × Reader) :=
  (decode_unsigned len r buf).bind fun (v, r) =>
  let v := v % 4294967296
  match ObjectType.tryFrom (v / 4194304) with
  | some t => .ok (⟨t, v % 4194304⟩, r)
  | none => .err (.invalidValue "invalid object type")

end ObjectId

/-! ## The tag codec (`common/tag.rs`, not under `src/`) -/

/-- Modelled from the spec: the application tag numbers of the standard's
tagged encoding (wire numbers 0–12); §3 — "Unknown application tag
numbers are a decode error". -/
inductive ApplicationTagNumber where
  | null
  | boolean
  | unsignedInt
  | signedInt
  | real
  | double
  | octetString
  | characterString
  | bitString
  | enumerated
  | date
  | time
  | objectId
  deriving DecidableEq

def ApplicationTagNumber.toNum : ApplicationTagNumber → Nat
  | .null => 0
  | .boolean => 1
  | .unsignedInt => 2
  | .signedInt => 3
  | .real => 4
  | .double => 5
  | .octetString => 6
  | .characterString => 7
  | .bitString => 8
  | .enumerated => 9
  | .date => 10
  | .time => 11
  | .objectId => 12

def ApplicationTagNumber.fromNum : Nat → Option ApplicationTagNumber
  | 0 => some .null
  | 1 => some .boolean
  | 2 => some .unsignedInt
  | 3 => some .signedInt
  | 4 => some .real
  | 5 => some .double
  | 6 => some .octetString
  | 7 => some .characterString
  | 8 => some .bitString
  | 9 => some .enumerated
  | 10 => some .date
  | 11 => some .time
  | 12 => some .objectId
  | _ => none

/-- Tag class: application, or context-specific with a field number. -/
inductive TagNumber where
  | application : ApplicationTagNumber → TagNumber
  | contextSpecific : Nat → TagNumber
  deriving DecidableEq

/-- The decoded tag header: class/number plus the length-or-value field
(`tag.value`). -/
structure Tag where
  number : TagNumber
  value : Nat
  deriving DecidableEq

namespace Tag

def new (number : TagNumber) (value : Nat) : Tag := ⟨number, value⟩

/-- Modelled from the spec: §4.2 — the header octet packs the tag number
(numbers ≥ 15 use the escape nibble 15 plus a following byte), the class
bit, and a length/value field: values 0–4 inline, 5 signals an extended
length of 1, 2, or 4 bytes chosen by magnitude (§3). -/
def encodeBytes (t : Tag) : List Nat :=
  let p := match t.number with
    | .application a => (0, a.toNum)
    | .contextSpecific n => (8, n)
  let classBit := p.1
  let num := p.2
  let lvt := if t.value ≤ 4 then t.value else 5
  let first :=
    if num ≤ 14 then [num * 16 + classBit + lvt]
    else [15 * 16 + classBit + lvt, num]
  let ext :=
    if t.value ≤ 4 then []
    else if t.value ≤ 253 then [t.value]
    else if t.value ≤ 65535 then [254, t.value / 256, t.value % 256]
    else [255] ++ beBytes4 t.value
  first ++ ext

def encode (t : Tag) (w : List Nat) : List Nat :=
  w ++ t.encodeBytes

/-- Modelled from the spec: §4.2 decode — reverse of `encodeBytes`.
An application-class tag number outside the known set is a typed decode
error (§3). -/
def decode (r : Reader) (buf : List Nat) : Res (Tag × Reader) :=
  (r.read_byte buf).bind fun (b, r) =>
  let num0 := b / 16
  let classBit := b / 8 % 2
  let lvt := b % 8
  (if num0 = 15 then r.read_byte buf else .ok (num0, r)).bind
    fun (num, r) =>
  (if lvt ≤ 4 then .ok (lvt, r)
   else if lvt = 5 then
     (r.read_byte buf).bind fun (e, r) =>
     if e ≤ 253 then .ok (e, r)
     else if e = 254 then
       (r.read_byte buf).bind fun (h, r) =>
       (r.read_byte buf).bind fun (l, r) =>
       .ok (h * 256 + l, r)
     else
       (r.read_bytes4 buf).bind fun ((b0, b1, b2, b3), r) =>
       .ok (fromBe4 b0 b1 b2 b3, r)
   else .panic "opening or closing context tag").bind fun (value, r) =>
  if classBit = 0 then
    match ApplicationTagNumber.fromNum num with
    | some a => .ok (⟨.application a, value⟩, r)
    | none => .err (.invalidValue "unknown application tag number")
  else
    .ok (⟨.contextSpecific num, value⟩, r)

end Tag

/-! ## `data_value.rs` (under `src/`): the application-data-value layer -/

/-- Modelled from the spec: §9 — weekly schedule support is "left
unimplemented in the source with a forced-failure placeholder"
(`common/daily_schedule.rs` is not under `src/`); only the variant's
existence matters here, so it is an opaque payload. -/
structure WeeklySchedule where
  raw : Nat
  deriving DecidableEq

/-- `Enumerated` (from `data_value.rs`): one wire shape, several
semantic interpretations plus an unknown-passthrough. -/
inductive Enumerated where
  | units : EngineeringUnits → Enumerated
  | binary : Binary → Enumerated
  | objectType : ObjectType → Enumerated
  | eventState : EventState → Enumerated
  | notifyType : NotifyType → Enumerated
  | loggingType : LoggingType → Enumerated
  | unknown : Nat → Enumerated
  deriving DecidableEq

namespace Enumerated

/-- The `*x as u32` extraction in `Enumerated::encode`. -/
def toU32 : Enumerated → Nat
  | .units x => x.code
  | .binary x => x.toCode
  | .objectType x => x.code
  | .eventState x => x.code
  | .notifyType x => x.code
  | .loggingType x => x.code
  | .unknown x => x

/-- `Enumerated::encode`: write an Enumerated application tag whose
length is the minimal unsigned length of the code, then the code
big-endian at that length. -/
def encode (e : Enumerated) (w : List Nat) : List Nat :=
  let value := e.toU32
  let len := get_len_u32 value
  let tag := Tag.new (.application .enumerated) len
  tag.encode w ++ encode_unsigned len value

end Enumerated

/-- `Date` (from `data_value.rs`): year stored as offset from 1900,
month, day, weekday 1–7. -/
structure Date where
  year : Nat
  month : Nat
  day : Nat
  wday : Nat
  deriving DecidableEq

namespace Date

def LEN : Nat := 4

/-- `Date::decode_inner`: `year = value[0] as u16 + 1900`, remaining
bytes taken as-is. -/
def decode_inner (b0 b1 b2 b3 : Nat) : Date :=
  ⟨b0 + 1900, b1, b2, b3⟩

/-- `Date::decode`: `read_bytes::<4>` then `decode_inner`.  The reader
panics on a short buffer; the interface itself is infallible. -/
def decode (r : Reader) (buf : List Nat) : Res (Date × Reader) :=
  (r.read_bytes4 buf).bind fun ((b0, b1, b2, b3), r) =>
  .ok (decode_inner b0 b1 b2 b3, r)

/-- `Date::encode`: push `(year - 1900) as u8` (wrapping `u16`
subtraction then truncation), then month, day, weekday. -/
def encode (d : Date) (w : List Nat) : List Nat :=
  w ++ [(d.year + 65536 - 1900) % 65536 % 256, d.month, d.day, d.wday]

end Date

/-- `Time` (from `data_value.rs`): hour, minute, second, hundredths. -/
structure Time where
  hour : Nat
  minute : Nat
  second : Nat
  hundredths : Nat
  deriving DecidableEq

namespace Time

def LEN : Nat := 4

/-- `Time::decode`: four `read_byte` calls.  The reader panics on a short
buffer; the interface itself is infallible. -/
def decode (r : Reader) (buf : List Nat) : Res (Time × Reader) :=
  (r.read_byte buf).bind fun (hour, r) =>
  (r.read_byte buf).bind fun (minute, r) =>
  (r.read_byte buf).bind fun (second, r) =>
  (r.read_byte buf).bind fun (hundredths, r) =>
  .ok (⟨hour, minute, second, hundredths⟩, r)

/-- `Time::encode`: push the four fields. -/
def encode (t : Time) (w : List Nat) : List Nat :=
  w ++ [t.hour, t.minute, t.second, t.hundredths]

end Time

/-- RFC 3629 continuation byte check (`0x80–0xBF`). -/
def utf8Cont (b : Nat) : Bool := 128 ≤ b && b ≤ 191

/-- Validity of a byte sequence as UTF-8 (`core::str::from_utf8`
succeeds exactly on valid sequences). -/
def utf8Valid : List Nat → Bool
  | [] => true
  | b :: rest =>
    if b ≤ 127 then utf8Valid rest
    else
      match rest with
      | [] => false
      | c1 :: r1 =>
        if 194 ≤ b && b ≤ 223 then utf8Cont c1 && utf8Valid r1
        else
          match r1 with
          | [] => false
          | c2 :: r2 =>
            if b = 224 then
              (160 ≤ c1 && c1 ≤ 191) && utf8Cont c2 && utf8Valid r2
            else if (225 ≤ b && b ≤ 236) || b = 238 || b = 239 then
              utf8Cont c1 && utf8Cont c2 && utf8Valid r2
            else if b = 237 then
              (128 ≤ c1 && c1 ≤ 159) && utf8Cont c2 && utf8Valid r2
            else
              match r2 with
              | [] => false
              | c3 :: r3 =>
                if b = 240 then
                  (144 ≤ c1 && c1 ≤ 191) && utf8Cont c2 && utf8Cont c3 &&
                    utf8Valid r3
                else if 241 ≤ b && b ≤ 243 then
                  utf8Cont c1 && utf8Cont c2 && utf8Cont c3 && utf8Valid r3
                else if b = 244 then
                  (128 ≤ c1 && c1 ≤ 143) && utf8Cont c2 && utf8Cont c3 &&
                    utf8Valid r3
                else false

/-- `CharacterString` (from `data_value.rs`): a zero-copy view of the
string's UTF-8 bytes (`inner: &str`, represented by its byte sequence). -/
structure CharacterString where
  inner : List Nat
  deriving DecidableEq

namespace CharacterString

/-- `CharacterString::decode`: read the character-set selector byte; a
non-zero selector hits `unimplemented!` (a panic); then borrow
`len - 1` bytes and `from_utf8(..).unwrap()` them (panic on invalid
UTF-8). -/
def decode (len : Nat) (r : Reader) (buf : List Nat) :
    Res (CharacterString × Reader) :=
  (r.read_byte buf).bind fun (character_set, r) =>
  if character_set ≠ 0 then
    .panic "non-utf8 characterset not supported"
  else
    (r.read_slice (len - 1) buf).bind fun (slice, r) =>
    if utf8Valid slice then .ok (⟨slice⟩, r)
    else .panic "from_utf8 unwrap on invalid utf8"

end CharacterString

/-- `CustomBitStream` (from `data_value.rs`). -/
structure CustomBitStream where
  unused_bits : Nat
  bits : List Nat
  deriving DecidableEq

/-- `BitString` (from `data_value.rs`): one wire shape, three semantic
interpretations selected by property id. -/
inductive BitString where
  | statusFlags : StatusFlagSet → BitString
  | logBufferResultFlags : LogFlagSet → BitString
  | custom : CustomBitStream → BitString
  deriving DecidableEq

namespace BitString

/-- `BitString::encode`: every arm writes a BitString application tag and
then `0` as the unused-bit-count byte — including `Custom`, whose own
`unused_bits` field is ignored — followed by the flag byte(s). -/
def encode (b : BitString) (w : List Nat) : List Nat :=
  match b with
  | .statusFlags x =>
    (Tag.new (.application .bitString) 2).encode w ++ [0, x.bits]
  | .logBufferResultFlags x =>
    (Tag.new (.application .bitString) 2).encode w ++ [0, x.bits]
  | .custom x =>
    (Tag.new (.application .bitString)
        ((x.bits.length + 1) % 4294967296)).encode w
      ++ [0] ++ x.bits

/-- `BitString::decode_byte_flag`: `FlagSet::new` on the byte; unknown
bits yield `Error::InvalidValue("invalid flag bitstream")`. -/
def decode_byte_flag_status (byte : Nat) : Res StatusFlagSet :=
  match StatusFlagSet.new byte with
  | some x => .ok x
  | none => .err (.invalidValue "invalid flag bitstream")

/-- `BitString::decode_byte_flag` at `LogBufferResultFlags`. -/
def decode_byte_flag_log (byte : Nat) : Res LogFlagSet :=
  match LogFlagSet.new byte with
  | some x => .ok x
  | none => .err (.invalidValue "invalid flag bitstream")

/-- `BitString::decode`: read the unused-bit-count byte, then dispatch on
the property id; the default arm computes `(len - 1) as usize` on the
`u32` length (wrapping) and borrows that many bytes. -/
def decode (property_id : PropertyId) (len : Nat) (r : Reader)
    (buf : List Nat) : Res (BitString × Reader) :=
  (r.read_byte buf).bind fun (unused_bits, r) =>
  match property_id with
  | .propStatusFlags =>
    (r.read_byte buf).bind fun (b, r) =>
    (decode_byte_flag_status b).bind fun x =>
    .ok (.statusFlags x, r)
  | .propLogBuffer =>
    (r.read_byte buf).bind fun (b, r) =>
    (decode_byte_flag_log b).bind fun x =>
    .ok (.logBufferResultFlags x, r)
  | _ =>
    let len' := u32SubOne len
    (r.read_slice len' buf).bind fun (bits, r) =>
    .ok (.custom ⟨unused_bits, bits⟩, r)

end BitString

/-- `ApplicationDataValue` (from `data_value.rs`): the closed tagged
union over the primitive BACnet value types.  The float variants carry
IEEE-754 bit patterns. -/
inductive ApplicationDataValue where
  | boolean : Bool → ApplicationDataValue
  | real : Nat → ApplicationDataValue
  | double : Nat → ApplicationDataValue
  | date : Date → ApplicationDataValue
  | time : Time → ApplicationDataValue
  | objectId : ObjectId → ApplicationDataValue
  | characterString : CharacterString → ApplicationDataValue
  | enumerated : Enumerated → ApplicationDataValue
  | bitString : BitString → ApplicationDataValue
  | unsignedInt : Nat → ApplicationDataValue
  | weeklySchedule : WeeklySchedule → ApplicationDataValue
  deriving DecidableEq

namespace ApplicationDataValue

/-- `ApplicationDataValue::encode`: per-variant tag-then-content; the
`WeeklySchedule` arm and the catch-all arm (which `Double` falls into)
are `todo!()` — a panic. -/
def encode (v : ApplicationDataValue) (w : List Nat) : Res (List Nat) :=
  match v with
  | .boolean x =>
    .ok ((Tag.new (.application .boolean) (if x then 1 else 0)).encode w)
  | .real x =>
    .ok ((Tag.new (.application .real) 4).encode w ++ beBytes4 x)
  | .date x =>
    .ok (x.encode ((Tag.new (.application .date) Date.LEN).encode w))
  | .time x =>
    .ok (x.encode ((Tag.new (.application .time) Time.LEN).encode w))
  | .objectId x =>
    .ok (x.encode ((Tag.new (.application .objectId) ObjectId.LEN).encode w))
  | .characterString x =>
    .ok ((Tag.new (.application .characterString)
          ((x.inner.length + 1) % 4294967296)).encode w
        ++ [0] ++ x.inner)
  | .enumerated x => .ok (x.encode w)
  | .bitString x => .ok (x.encode w)
  | .unsignedInt x =>
    .ok ((Tag.new (.application .unsignedInt) 4).encode w
        ++ beBytes4 (x % 4294967296))
  | .weeklySchedule _ => .panic "not yet implemented"
  | .double _ => .panic "not yet implemented"

/-- Lift an `Option` produced by a `TryFrom` to the `unwrap` that
`ApplicationDataValue::decode` performs on it. -/
def unwrapOption (o : Option α) (msg : String) : Res α :=
  match o with
  | some a => .ok a
  | none => .panic msg

/-- The `.unwrap()` on a `Result`-returning callee: a typed error from
the callee becomes a panic in the caller. -/
def unwrapRes (x : Res α) (msg : String) : Res α :=
  match x with
  | .ok a => .ok a
  | .err _ => .panic msg
  | .panic m => .panic m

/-- `ApplicationDataValue::decode`: context-sensitive dispatch.  A
non-application tag hits `panic!`; `Real`/`Time` assert the tag length;
`ObjectId`/`BitString` unwrap their callee's `Result`; the `Enumerated`
arm dispatches on property id (and on object type for present-value) and
unwraps each `TryFrom`; unknown application tags hit `unimplemented!`. -/
def decode (tag : Tag) (object_id : ObjectId) (property_id : PropertyId)
    (r : Reader) (buf : List Nat) : Res (ApplicationDataValue × Reader) :=
  match tag.number with
  | .contextSpecific _ => .panic "application tag number expected"
  | .application tag_num =>
    match tag_num with
    | .real =>
      if tag.value ≠ 4 then .panic "read tag should have length of 4"
      else
        (r.read_bytes4 buf).bind fun ((b0, b1, b2, b3), r) =>
        .ok (.real (fromBe4 b0 b1 b2 b3), r)
    | .objectId =>
      (unwrapRes (ObjectId.decode tag.value r buf) "object id unwrap").bind
        fun (o, r) => .ok (.objectId o, r)
    | .characterString =>
      (CharacterString.decode tag.value r buf).bind fun (t, r) =>
      .ok (.characterString t, r)
    | .enumerated =>
      (decode_unsigned tag.value r buf).bind fun (v64, r) =>
      let value := v64 % 4294967296
      (match property_id with
       | .propUnits =>
         (unwrapOption (EngineeringUnits.tryFrom value)
            "units try_into unwrap").bind fun u =>
         .ok (Enumerated.units u)
       | .propPresentValue =>
         if object_id.object_type.isBinary then
           (unwrapOption (Binary.tryFrom value)
              "binary try_into unwrap").bind fun b =>
           .ok (Enumerated.binary b)
         else .ok (Enumerated.unknown value)
       | .propObjectType =>
         (unwrapOption (ObjectType.tryFrom value)
            "object type try_from unwrap").bind fun t =>
         .ok (Enumerated.objectType t)
       | .propEventState =>
         (unwrapOption (EventState.tryFrom value)
            "event state try_from unwrap").bind fun e =>
         .ok (Enumerated.eventState e)
       | .propNotifyType =>
         (unwrapOption (NotifyType.tryFrom value)
            "notify type try_from unwrap").bind fun n =>
         .ok (Enumerated.notifyType n)
       | .propLoggingType =>
         (unwrapOption (LoggingType.tryFrom value)
            "logging type try_from unwrap").bind fun l =>
         .ok (Enumerated.loggingType l)
       | _ => .ok (Enumerated.unknown value)).bind fun e =>
      .ok (.enumerated e, r)
    | .bitString =>
      (unwrapRes (BitString.decode property_id tag.value r buf)
          "bit string unwrap").bind fun (b, r) =>
      .ok (.bitString b, r)
    | .boolean =>
      .ok (.boolean (decide (0 < tag.value)), r)
    | .unsignedInt =>
      (decode_unsigned tag.value r buf).bind fun (v64, r) =>
      .ok (.unsignedInt (v64 % 4294967296), r)
    | .time =>
      if tag.value ≠ 4 then .panic "assertion failed: tag.value == 4"
      else
        (Time.decode r buf).bind fun (t, r) =>
        .ok (.time t, r)
    | .date =>
      (Date.decode r buf).bind fun (d, r) =>
      .ok (.date d, r)
    | _ => .panic "not implemented application tag"

end ApplicationDataValue

/-- The full decode pipeline the spec's round-trip property speaks about:
encode the value into an empty writer, decode the tag header off the
produced bytes, then decode the value with the given request context. -/
def roundTrip (object_id : ObjectId) (property_id : PropertyId)
    (v : ApplicationDataValue) : Res ApplicationDataValue :=
  (v.encode []).bind fun buf =>
  (Tag.decode ⟨0⟩ buf).bind fun (tag, r) =>
  (ApplicationDataValue.decode tag object_id property_id r buf).bind
    fun (v', _) => .ok v'

/-! ## Reader plumbing lemmas -/

theorem Reader.read_byte_cons {buf : List Nat} {i b : Nat} {tail : List Nat}
    (h : buf.drop i = b :: tail) :
    Reader.read_byte ⟨i⟩ buf = .ok (b, ⟨i + 1⟩) := by
  unfold Reader.read_byte
  rw [h]

theorem List.drop_succ_of_drop_cons {buf : List Nat} {i b : Nat}
    {tail : List Nat} (h : buf.drop i = b :: tail) :
    buf.drop (i + 1) = tail := by
  have h2 := List.drop_drop 1 i buf
  rw [h] at h2
  simpa using h2.symm

theorem Reader.read_bytes4_cons {buf : List Nat} {i b0 b1 b2 b3 : Nat}
    {tail : List Nat} (h : buf.drop i = b0 :: b1 :: b2 :: b3 :: tail) :
    Reader.read_bytes4 ⟨i⟩ buf = .ok ((b0, b1, b2, b3), ⟨i + 4⟩) := by
  unfold Reader.read_bytes4
  rw [h]

theorem Reader.read_slice_spec {buf s tail : List Nat} {i len : Nat}
    (h : buf.drop i = s ++ tail) (hs : s.length = len)
    (hi : i ≤ buf.length) :
    Reader.read_slice ⟨i⟩ len buf = .ok (s, ⟨i + len⟩) := by
  have hlen : (buf.drop i).length = buf.length - i := List.length_drop i buf
  rw [h] at hlen
  simp only [List.length_append, hs] at hlen
  unfold Reader.read_slice
  dsimp only
  rw [if_pos (by omega : i + len ≤ buf.length), h, List.take_left' hs]

/-- Decoding an unsigned at its minimal length recovers the value. -/
theorem decode_unsigned_encode {buf tail : List Nat} {i v : Nat}
    (hv : v < 4294967296)
    (h : buf.drop i = encode_unsigned (get_len_u32 v) v ++ tail) :
    decode_unsigned (get_len_u32 v) ⟨i⟩ buf =
      .ok (v, ⟨i + get_len_u32 v⟩) := by
  unfold get_len_u32 at *
  unfold encode_unsigned at h
  by_cases h1 : v < 256
  · simp only [if_pos h1] at *
    rw [decode_unsigned, Reader.read_byte_cons h]
    have : v % 256 = v := Nat.mod_eq_of_lt h1
    rw [this]
  · by_cases h2 : v < 65536
    · simp only [if_neg h1, if_pos h2] at *
      have e0 := Reader.read_byte_cons h
      have d0 := List.drop_succ_of_drop_cons h
      have e1 := Reader.read_byte_cons (by simpa using d0)
      simp only [decode_unsigned, e0, e1, Res.bind_ok]
      have : v / 256 % 256 * 256 + v % 256 = v := by omega
      rw [this, show i + 1 + 1 = i + 2 from rfl]
    · by_cases h3 : v < 16777216
      · simp only [if_neg h1, if_neg h2, if_pos h3] at *
        have e0 := Reader.read_byte_cons h
        have d0 := List.drop_succ_of_drop_cons h
        have e1 := Reader.read_byte_cons (by simpa using d0)
        have d1 := List.drop_succ_of_drop_cons (by simpa using d0)
        have e2 := Reader.read_byte_cons (by simpa using d1)
        simp only [decode_unsigned, e0, e1, e2, Res.bind_ok]
        have : (v / 65536 % 256 * 256 + v / 256 % 256) * 256 + v % 256 = v := by
          omega
        rw [this, show i + 1 + 1 + 1 = i + 3 from rfl]
      · simp only [if_neg h1, if_neg h2, if_neg h3] at *
        have e0 := Reader.read_byte_cons h
        have d0 := List.drop_succ_of_drop_cons h
        have e1 := Reader.read_byte_cons (by simpa using d0)
        have d1 := List.drop_succ_of_drop_cons (by simpa using d0)
        have e2 := Reader.read_byte_cons (by simpa using d1)
        have d2 := List.drop_succ_of_drop_cons (by simpa using d1)
        have e3 := Reader.read_byte_cons (by simpa using d2)
        simp only [decode_unsigned, e0, e1, e2, e3, Res.bind_ok]
        have : ((v / 16777216 % 256 * 256 + v / 65536 % 256) * 256
            + v / 256 % 256) * 256 + v % 256 = v := by omega
        rw [this, show i + 1 + 1 + 1 + 1 = i + 4 from rfl]

/-- `decode_unsigned` at declared length 4 over `beBytes4` bytes recovers
the value. -/
theorem decode_unsigned_four {buf tail : List Nat} {i v : Nat}
    (hv : v < 4294967296) (h : buf.drop i = beBytes4 v ++ tail) :
    decode_unsigned 4 ⟨i⟩ buf = .ok (v, ⟨i + 4⟩) := by
  unfold beBytes4 at h
  have e0 := Reader.read_byte_cons h
  have d0 := List.drop_succ_of_drop_cons h
  have e1 := Reader.read_byte_cons (by simpa using d0)
  have d1 := List.drop_succ_of_drop_cons (by simpa using d0)
  have e2 := Reader.read_byte_cons (by simpa using d1)
  have d2 := List.drop_succ_of_drop_cons (by simpa using d1)
  have e3 := Reader.read_byte_cons (by simpa using d2)
  simp only [decode_unsigned, e0, e1, e2, e3, Res.bind_ok]
  have : ((v / 16777216 % 256 * 256 + v / 65536 % 256) * 256
      + v / 256 % 256) * 256 + v % 256 = v := by omega
  rw [this, show i + 1 + 1 + 1 + 1 = i + 4 from rfl]

/-- Reading four bytes written by `beBytes4` recovers the value. -/
theorem read_bytes4_beBytes4 {buf tail : List Nat} {i v : Nat}
    (h : buf.drop i = beBytes4 v ++ tail) :
    Reader.read_bytes4 ⟨i⟩ buf =
      .ok ((v / 16777216 % 256, v / 65536 % 256, v / 256 % 256, v % 256),
        ⟨i + 4⟩) := by
  unfold beBytes4 at h
  exact Reader.read_bytes4_cons h

theorem fromBe4_beBytes4 {v : Nat} (hv : v < 4294967296) :
    fromBe4 (v / 16777216 % 256) (v / 65536 % 256) (v / 256 % 256)
      (v % 256) = v := by
  unfold fromBe4
  omega

theorem ApplicationTagNumber.fromNum_toNum (a : ApplicationTagNumber) :
    ApplicationTagNumber.fromNum a.toNum = some a := by
  cases a <;> rfl

theorem ApplicationTagNumber.toNum_le (a : ApplicationTagNumber) :
    a.toNum ≤ 12 := by
  cases a <;> simp [ApplicationTagNumber.toNum]

/-- Round trip of the tag codec for an application tag: decoding the
bytes produced by `encodeBytes` (with any trailing bytes) recovers the
tag and leaves the reader just past the header. -/
theorem Tag.decode_encodeBytes (a : ApplicationTagNumber) (v : Nat)
    (hv : v < 4294967296) (rest : List Nat) :
    Tag.decode ⟨0⟩ (Tag.encodeBytes ⟨.application a, v⟩ ++ rest) =
      .ok (⟨.application a, v⟩,
        ⟨(Tag.encodeBytes ⟨.application a, v⟩).length⟩) := by
  have hnum : a.toNum ≤ 12 := ApplicationTagNumber.toNum_le a
  have h14 : a.toNum ≤ 14 := by omega
  have h15 : ¬ a.toNum = 15 := by omega
  by_cases h1 : v ≤ 4
  · have henc : Tag.encodeBytes ⟨.application a, v⟩ = [a.toNum * 16 + v] := by
      simp [Tag.encodeBytes, h1, h14]
    rw [henc]
    have hb : ([a.toNum * 16 + v] ++ rest).drop 0
        = (a.toNum * 16 + v) :: rest := rfl
    have e0 := Reader.read_byte_cons hb
    have hdiv : (a.toNum * 16 + v) / 16 = a.toNum := by omega
    have hcls : (a.toNum * 16 + v) / 8 % 2 = 0 := by omega
    have hlvt : (a.toNum * 16 + v) % 8 = v := by omega
    simp only [Tag.decode, e0, Res.bind_ok, hdiv, hcls, hlvt, if_neg h15,
      if_pos h1, ApplicationTagNumber.fromNum_toNum]
    simp
  · have hlvt5 : (a.toNum * 16 + 5) % 8 = 5 := by omega
    have hdiv : (a.toNum * 16 + 5) / 16 = a.toNum := by omega
    have hcls : (a.toNum * 16 + 5) / 8 % 2 = 0 := by omega
    have h54 : ¬ (5 : Nat) ≤ 4 := by omega
    by_cases h2 : v ≤ 253
    · have henc : Tag.encodeBytes ⟨.application a, v⟩
          = [a.toNum * 16 + 5, v] := by
        simp [Tag.encodeBytes, h1, h2, h14]
      rw [henc]
      have hb : ([a.toNum * 16 + 5, v] ++ rest).drop 0
          = (a.toNum * 16 + 5) :: v :: rest := rfl
      have e0 := Reader.read_byte_cons hb
      have e1 := Reader.read_byte_cons (List.drop_succ_of_drop_cons hb)
      simp only [Tag.decode, e0, e1, Res.bind_ok, hdiv, hcls, hlvt5,
        if_neg h15, if_neg h54, if_pos rfl, if_pos h2,
        ApplicationTagNumber.fromNum_toNum]
      simp
    · have h253 : ¬ v ≤ 253 := h2
      by_cases h3 : v ≤ 65535
      · have henc : Tag.encodeBytes ⟨.application a, v⟩
            = [a.toNum * 16 + 5, 254, v / 256, v % 256] := by
          simp [Tag.encodeBytes, h1, h2, h3, h14]
        rw [henc]
        have hb : ([a.toNum * 16 + 5, 254, v / 256, v % 256] ++ rest).drop 0
            = (a.toNum * 16 + 5) :: 254 :: (v / 256) :: (v % 256) :: rest :=
          rfl
        have hb1 := List.drop_succ_of_drop_cons hb
        have hb2 := List.drop_succ_of_drop_cons hb1
        have hb3 := List.drop_succ_of_drop_cons hb2
        have e0 := Reader.read_byte_cons hb
        have e1 := Reader.read_byte_cons hb1
        have e2 := Reader.read_byte_cons hb2
        have e3 := Reader.read_byte_cons hb3
        have hrec : v / 256 * 256 + v % 256 = v := by omega
        simp only [Tag.decode, e0, e1, e2, e3, Res.bind_ok, hdiv, hcls,
          hlvt5, if_neg h15, if_neg h54, if_pos rfl,
          if_neg (by omega : ¬ (254 : Nat) ≤ 253), hrec,
          ApplicationTagNumber.fromNum_toNum]
        simp
      · have henc : Tag.encodeBytes ⟨.application a, v⟩
            = [a.toNum * 16 + 5, 255] ++ beBytes4 v := by
          simp [Tag.encodeBytes, h1, h2, h3, h14]
        rw [henc]
        have hb : (([a.toNum * 16 + 5, 255] ++ beBytes4 v) ++ rest).drop 0
            = (a.toNum * 16 + 5) :: 255 :: (beBytes4 v ++ rest) := by
          simp [beBytes4]
        have hb1 := List.drop_succ_of_drop_cons hb
        have hb2 : (([a.toNum * 16 + 5, 255] ++ beBytes4 v) ++ rest).drop 2
            = beBytes4 v ++ rest := List.drop_succ_of_drop_cons hb1
        have e0 := Reader.read_byte_cons hb
        have e1 := Reader.read_byte_cons hb1
        have e4 := read_bytes4_beBytes4 hb2
        simp only [Tag.decode, e0, e1, e4, Res.bind_ok, hdiv, hcls, hlvt5,
          if_neg h15, if_neg h54, if_pos rfl,
          if_neg (by omega : ¬ (255 : Nat) ≤ 253),
          if_neg (by omega : ¬ (255 : Nat) = 254),
          fromBe4_beBytes4 hv, ApplicationTagNumber.fromNum_toNum]
        simp [beBytes4]

/-! ## Per-variant round-trip lemmas -/

theorem roundTrip_boolean (oid : ObjectId) (pid : PropertyId) (b : Bool) :
    roundTrip oid pid (.boolean b) = .ok (.boolean b) := by
  cases b <;> rfl

theorem roundTrip_real (oid : ObjectId) (pid : PropertyId) (x : Nat)
    (hx : x < 4294967296) :
    roundTrip oid pid (.real x) = .ok (.real x) := by
  unfold roundTrip
  have henc : ApplicationDataValue.encode (.real x) []
      = .ok (Tag.encodeBytes ⟨.application .real, 4⟩ ++ beBytes4 x) := by
    simp [ApplicationDataValue.encode, Tag.encode, Tag.new]
  have hdrop : (Tag.encodeBytes ⟨.application .real, 4⟩ ++ beBytes4 x).drop
      (Tag.encodeBytes ⟨.application .real, 4⟩).length = beBytes4 x ++ [] := by
    rw [List.drop_left]
    simp
  simp only [henc, Res.bind_ok,
    Tag.decode_encodeBytes .real 4 (by omega) (beBytes4 x),
    ApplicationDataValue.decode, read_bytes4_beBytes4 hdrop, Res.bind_ok,
    fromBe4_beBytes4 hx]
  simp

theorem roundTrip_unsignedInt (oid : ObjectId) (pid : PropertyId) (x : Nat)
    (hx : x < 4294967296) :
    roundTrip oid pid (.unsignedInt x) = .ok (.unsignedInt x) := by
  unfold roundTrip
  have hxm : x % 4294967296 = x := Nat.mod_eq_of_lt hx
  have henc : ApplicationDataValue.encode (.unsignedInt x) []
      = .ok (Tag.encodeBytes ⟨.application .unsignedInt, 4⟩ ++ beBytes4 x) := by
    simp [ApplicationDataValue.encode, Tag.encode, Tag.new, hxm]
  have hdrop : (Tag.encodeBytes ⟨.application .unsignedInt, 4⟩
        ++ beBytes4 x).drop
      (Tag.encodeBytes ⟨.application .unsignedInt, 4⟩).length
      = beBytes4 x ++ [] := by
    rw [List.drop_left]
    simp
  simp only [henc, Res.bind_ok,
    Tag.decode_encodeBytes .unsignedInt 4 (by omega) (beBytes4 x),
    ApplicationDataValue.decode, decode_unsigned_four hx hdrop,
    Res.bind_ok, hxm]

theorem roundTrip_date (oid : ObjectId) (pid : PropertyId) (d : Date)
    (h1 : 1900 ≤ d.year) (h2 : d.year ≤ 2155) :
    roundTrip oid pid (.date d) = .ok (.date d) := by
  unfold roundTrip
  have henc : ApplicationDataValue.encode (.date d) []
      = .ok (Tag.encodeBytes ⟨.application .date, 4⟩
          ++ [(d.year + 65536 - 1900) % 65536 % 256, d.month, d.day,
            d.wday]) := by
    simp [ApplicationDataValue.encode, Tag.encode, Tag.new, Date.encode,
      Date.LEN]
  have hdrop : (Tag.encodeBytes ⟨.application .date, 4⟩
        ++ [(d.year + 65536 - 1900) % 65536 % 256, d.month, d.day,
          d.wday]).drop
      (Tag.encodeBytes ⟨.application .date, 4⟩).length
      = ((d.year + 65536 - 1900) % 65536 % 256) :: d.month :: d.day ::
        d.wday :: [] :=
    List.drop_left _ _
  have hyb : (d.year + 65536 - 1900) % 65536 % 256 + 1900 = d.year := by
    omega
  simp only [henc, Res.bind_ok,
    Tag.decode_encodeBytes .date 4 (by omega) _,
    ApplicationDataValue.decode, Date.decode,
    Reader.read_bytes4_cons hdrop, Res.bind_ok, Date.decode_inner, hyb]

theorem roundTrip_time (oid : ObjectId) (pid : PropertyId) (t : Time) :
    roundTrip oid pid (.time t) = .ok (.time t) := by
  unfold roundTrip
  have henc : ApplicationDataValue.encode (.time t) []
      = .ok (Tag.encodeBytes ⟨.application .time, 4⟩
          ++ [t.hour, t.minute, t.second, t.hundredths]) := by
    simp [ApplicationDataValue.encode, Tag.encode, Tag.new, Time.encode,
      Time.LEN]
  have hdrop : (Tag.encodeBytes ⟨.application .time, 4⟩
        ++ [t.hour, t.minute, t.second, t.hundredths]).drop
      (Tag.encodeBytes ⟨.application .time, 4⟩).length
      = t.hour :: t.minute :: t.second :: t.hundredths :: [] :=
    List.drop_left _ _
  have e0 := Reader.read_byte_cons hdrop
  have d0 := List.drop_succ_of_drop_cons hdrop
  have e1 := Reader.read_byte_cons d0
  have d1 := List.drop_succ_of_drop_cons d0
  have e2 := Reader.read_byte_cons d1
  have d2 := List.drop_succ_of_drop_cons d1
  have e3 := Reader.read_byte_cons d2
  simp only [henc, Res.bind_ok,
    Tag.decode_encodeBytes .time 4 (by omega) _,
    ApplicationDataValue.decode, Time.decode, e0, e1, e2, e3, Res.bind_ok]
  simp

theorem roundTrip_objectId (oid : ObjectId) (pid : PropertyId)
    (o : ObjectId) (hc : o.object_type.code < 1024) (hid : o.id < 4194304) :
    roundTrip oid pid (.objectId o) = .ok (.objectId o) := by
  unfold roundTrip
  have hidm : o.id % 4194304 = o.id := Nat.mod_eq_of_lt hid
  have hpack : o.object_type.code * 4194304 + o.id < 4294967296 := by omega
  have henc : ApplicationDataValue.encode (.objectId o) []
      = .ok (Tag.encodeBytes ⟨.application .objectId, 4⟩
          ++ beBytes4 (o.object_type.code * 4194304 + o.id)) := by
    simp [ApplicationDataValue.encode, Tag.encode, Tag.new, ObjectId.encode,
      ObjectId.LEN, hidm]
  have hdrop : (Tag.encodeBytes ⟨.application .objectId, 4⟩
        ++ beBytes4 (o.object_type.code * 4194304 + o.id)).drop
      (Tag.encodeBytes ⟨.application .objectId, 4⟩).length
      = beBytes4 (o.object_type.code * 4194304 + o.id) ++ [] := by
    rw [List.drop_left]
    simp
  have hdu := decode_unsigned_four hpack hdrop
  have hmod : (o.object_type.code * 4194304 + o.id) % 4294967296
      = o.object_type.code * 4194304 + o.id := Nat.mod_eq_of_lt hpack
  have hdivq : (o.object_type.code * 4194304 + o.id) / 4194304
      = o.object_type.code := by omega
  have hmodq : (o.object_type.code * 4194304 + o.id) % 4194304 = o.id := by
    omega
  simp only [henc, Res.bind_ok,
    Tag.decode_encodeBytes .objectId 4 (by omega) _,
    ApplicationDataValue.decode, ApplicationDataValue.unwrapRes,
    ObjectId.decode, hdu, Res.bind_ok, hmod, hdivq, hmodq,
    ObjectType.tryFrom, if_pos hc]

theorem roundTrip_characterString (oid : ObjectId) (pid : PropertyId)
    (s : CharacterString) (hu : utf8Valid s.inner = true)
    (hl : s.inner.length + 1 < 4294967296) :
    roundTrip oid pid (.characterString s) = .ok (.characterString s) := by
  unfold roundTrip
  have hlm : (s.inner.length + 1) % 4294967296 = s.inner.length + 1 :=
    Nat.mod_eq_of_lt hl
  have henc : ApplicationDataValue.encode (.characterString s) []
      = .ok (Tag.encodeBytes
            ⟨.application .characterString, s.inner.length + 1⟩
          ++ (0 :: s.inner)) := by
    simp [ApplicationDataValue.encode, Tag.encode, Tag.new, hlm]
  have hdrop : (Tag.encodeBytes
          ⟨.application .characterString, s.inner.length + 1⟩
        ++ (0 :: s.inner)).drop
      (Tag.encodeBytes
          ⟨.application .characterString, s.inner.length + 1⟩).length
      = 0 :: s.inner :=
    List.drop_left _ _
  have e0 := Reader.read_byte_cons hdrop
  have d0 : (Tag.encodeBytes
          ⟨.application .characterString, s.inner.length + 1⟩
        ++ (0 :: s.inner)).drop
      ((Tag.encodeBytes
          ⟨.application .characterString, s.inner.length + 1⟩).length + 1)
      = s.inner ++ [] := by
    rw [List.drop_succ_of_drop_cons hdrop]
    simp
  have hlenbuf : (Tag.encodeBytes
          ⟨.application .characterString, s.inner.length + 1⟩).length + 1
      ≤ (Tag.encodeBytes
          ⟨.application .characterString, s.inner.length + 1⟩
        ++ (0 :: s.inner)).length := by
    simp [List.length_append]
  have hslice := Reader.read_slice_spec d0 rfl hlenbuf
  have hsub : s.inner.length + 1 - 1 = s.inner.length := by omega
  simp only [henc, Res.bind_ok,
    Tag.decode_encodeBytes .characterString (s.inner.length + 1)
      (by omega) _,
    ApplicationDataValue.decode, CharacterString.decode, e0, Res.bind_ok,
    hsub, hslice, hu]
  simp

theorem get_len_u32_le (v : Nat) : get_len_u32 v ≤ 4 := by
  unfold get_len_u32
  split_ifs <;> omega

/-- Common part of the Enumerated round trips: the produced byte stream is
the tag followed by the minimal-length unsigned encoding of the code. -/
theorem Enumerated.encode_eq (e : Enumerated) :
    ApplicationDataValue.encode (.enumerated e) []
      = .ok (Tag.encodeBytes ⟨.application .enumerated, get_len_u32 e.toU32⟩
          ++ encode_unsigned (get_len_u32 e.toU32) e.toU32) := by
  simp [ApplicationDataValue.encode, Enumerated.encode, Tag.encode, Tag.new]

/-- Decoding the value bytes behind an Enumerated tag produced by
`Enumerated.encode` recovers the code (still undispatched). -/
theorem enumerated_content_decodes {v : Nat} (hv : v < 4294967296) :
    decode_unsigned (get_len_u32 v)
      ⟨(Tag.encodeBytes ⟨.application .enumerated, get_len_u32 v⟩).length⟩
      (Tag.encodeBytes ⟨.application .enumerated, get_len_u32 v⟩
        ++ encode_unsigned (get_len_u32 v) v)
      = .ok (v,
        ⟨(Tag.encodeBytes ⟨.application .enumerated, get_len_u32 v⟩).length
          + get_len_u32 v⟩) := by
  refine @decode_unsigned_encode _ [] _ _ hv ?_
  rw [List.drop_left]
  simp

/-- The contexts in which the Enumerated decode dispatch falls through to
the unknown-passthrough (the `_` arms of the property-id match, and the
non-binary object types under present-value). -/
def enumSelectsUnknown (oid : ObjectId) (pid : PropertyId) : Bool :=
  match pid with
  | .propUnits => false
  | .propObjectType => false
  | .propEventState => false
  | .propNotifyType => false
  | .propLoggingType => false
  | .propPresentValue => !oid.object_type.isBinary
  | _ => true

theorem roundTrip_enumerated_units (oid : ObjectId) (u : EngineeringUnits)
    (hu : u.code ≤ 254) :
    roundTrip oid .propUnits (.enumerated (.units u))
      = .ok (.enumerated (.units u)) := by
  unfold roundTrip
  have hv : (Enumerated.units u).toU32 < 4294967296 := by
    simp only [Enumerated.toU32]
    omega
  have hlen : get_len_u32 (Enumerated.units u).toU32 < 4294967296 := by
    have := get_len_u32_le (Enumerated.units u).toU32
    omega
  simp only [Enumerated.encode_eq, Res.bind_ok,
    Tag.decode_encodeBytes .enumerated _ hlen _,
    ApplicationDataValue.decode, enumerated_content_decodes hv,
    Res.bind_ok, Nat.mod_eq_of_lt hv]
  simp only [Enumerated.toU32, ApplicationDataValue.unwrapOption,
    EngineeringUnits.tryFrom, if_pos hu, Res.bind_ok]

theorem roundTrip_enumerated_binary (oid : ObjectId)
    (hbin : oid.object_type.isBinary = true) (b : Binary) :
    roundTrip oid .propPresentValue (.enumerated (.binary b))
      = .ok (.enumerated (.binary b)) := by
  unfold roundTrip
  have hv : (Enumerated.binary b).toU32 < 4294967296 := by
    cases b <;> simp [Enumerated.toU32, Binary.toCode]
  have hlen : get_len_u32 (Enumerated.binary b).toU32 < 4294967296 := by
    have := get_len_u32_le (Enumerated.binary b).toU32
    omega
  simp only [Enumerated.encode_eq, Res.bind_ok,
    Tag.decode_encodeBytes .enumerated _ hlen _,
    ApplicationDataValue.decode, enumerated_content_decodes hv,
    Res.bind_ok, Nat.mod_eq_of_lt hv, hbin, if_pos]
  cases b <;> simp [Enumerated.toU32, Binary.toCode, Binary.tryFrom,
    ApplicationDataValue.unwrapOption]

theorem roundTrip_enumerated_objectType (oid : ObjectId) (t : ObjectType)
    (ht : t.code < 1024) :
    roundTrip oid .propObjectType (.enumerated (.objectType t))
      = .ok (.enumerated (.objectType t)) := by
  unfold roundTrip
  have hv : (Enumerated.objectType t).toU32 < 4294967296 := by
    simp only [Enumerated.toU32]
    omega
  have hlen : get_len_u32 (Enumerated.objectType t).toU32 < 4294967296 := by
    have := get_len_u32_le (Enumerated.objectType t).toU32
    omega
  simp only [Enumerated.encode_eq, Res.bind_ok,
    Tag.decode_encodeBytes .enumerated _ hlen _,
    ApplicationDataValue.decode, enumerated_content_decodes hv,
    Res.bind_ok, Nat.mod_eq_of_lt hv]
  simp only [Enumerated.toU32, ApplicationDataValue.unwrapOption,
    ObjectType.tryFrom, if_pos ht, Res.bind_ok]

theorem roundTrip_enumerated_eventState (oid : ObjectId) (x : EventState)
    (hx : x.code ≤ 4) :
    roundTrip oid .propEventState (.enumerated (.eventState x))
      = .ok (.enumerated (.eventState x)) := by
  unfold roundTrip
  have hv : (Enumerated.eventState x).toU32 < 4294967296 := by
    simp only [Enumerated.toU32]
    omega
  have hlen : get_len_u32 (Enumerated.eventState x).toU32 < 4294967296 := by
    have := get_len_u32_le (Enumerated.eventState x).toU32
    omega
  simp only [Enumerated.encode_eq, Res.bind_ok,
    Tag.decode_encodeBytes .enumerated _ hlen _,
    ApplicationDataValue.decode, enumerated_content_decodes hv,
    Res.bind_ok, Nat.mod_eq_of_lt hv]
  simp only [Enumerated.toU32, ApplicationDataValue.unwrapOption,
    EventState.tryFrom, if_pos hx, Res.bind_ok]

theorem roundTrip_enumerated_notifyType (oid : ObjectId) (x : NotifyType)
    (hx : x.code ≤ 2) :
    roundTrip oid .propNotifyType (.enumerated (.notifyType x))
      = .ok (.enumerated (.notifyType x)) := by
  unfold roundTrip
  have hv : (Enumerated.notifyType x).toU32 < 4294967296 := by
    simp only [Enumerated.toU32]
    omega
  have hlen : get_len_u32 (Enumerated.notifyType x).toU32 < 4294967296 := by
    have := get_len_u32_le (Enumerated.notifyType x).toU32
    omega
  simp only [Enumerated.encode_eq, Res.bind_ok,
    Tag.decode_encodeBytes .enumerated _ hlen _,
    ApplicationDataValue.decode, enumerated_content_decodes hv,
    Res.bind_ok, Nat.mod_eq_of_lt hv]
  simp only [Enumerated.toU32, ApplicationDataValue.unwrapOption,
    NotifyType.tryFrom, if_pos hx, Res.bind_ok]

theorem roundTrip_enumerated_loggingType (oid : ObjectId) (x : LoggingType)
    (hx : x.code ≤ 2) :
    roundTrip oid .propLoggingType (.enumerated (.loggingType x))
      = .ok (.enumerated (.loggingType x)) := by
  unfold roundTrip
  have hv : (Enumerated.loggingType x).toU32 < 4294967296 := by
    simp only [Enumerated.toU32]
    omega
  have hlen : get_len_u32 (Enumerated.loggingType x).toU32 < 4294967296 := by
    have := get_len_u32_le (Enumerated.loggingType x).toU32
    omega
  simp only [Enumerated.encode_eq, Res.bind_ok,
    Tag.decode_encodeBytes .enumerated _ hlen _,
    ApplicationDataValue.decode, enumerated_content_decodes hv,
    Res.bind_ok, Nat.mod_eq_of_lt hv]
  simp only [Enumerated.toU32, ApplicationDataValue.unwrapOption,
    LoggingType.tryFrom, if_pos hx, Res.bind_ok]

theorem roundTrip_enumerated_unknown (oid : ObjectId) (pid : PropertyId)
    (u : Nat) (hu : u < 4294967296)
    (hd : enumSelectsUnknown oid pid = true) :
    roundTrip oid pid (.enumerated (.unknown u))
      = .ok (.enumerated (.unknown u)) := by
  unfold roundTrip
  have hv : (Enumerated.unknown u).toU32 < 4294967296 := hu
  have hlen : get_len_u32 (Enumerated.unknown u).toU32 < 4294967296 := by
    have := get_len_u32_le (Enumerated.unknown u).toU32
    omega
  simp only [Enumerated.encode_eq, Res.bind_ok,
    Tag.decode_encodeBytes .enumerated _ hlen _,
    ApplicationDataValue.decode, enumerated_content_decodes hv,
    Res.bind_ok, Nat.mod_eq_of_lt hv]
  cases pid <;>
    simp_all [enumSelectsUnknown, Enumerated.toU32, Bool.not_eq_true']

theorem roundTrip_bitString_status (oid : ObjectId) (x : StatusFlagSet)
    (hx : x.bits < 16) :
    roundTrip oid .propStatusFlags (.bitString (.statusFlags x))
      = .ok (.bitString (.statusFlags x)) := by
  unfold roundTrip
  have henc : ApplicationDataValue.encode (.bitString (.statusFlags x)) []
      = .ok (Tag.encodeBytes ⟨.application .bitString, 2⟩
          ++ [0, x.bits]) := by
    simp [ApplicationDataValue.encode, BitString.encode, Tag.encode, Tag.new]
  have hdrop : (Tag.encodeBytes ⟨.application .bitString, 2⟩
        ++ [0, x.bits]).drop
      (Tag.encodeBytes ⟨.application .bitString, 2⟩).length
      = 0 :: x.bits :: [] :=
    List.drop_left _ _
  have e0 := Reader.read_byte_cons hdrop
  have e1 := Reader.read_byte_cons (List.drop_succ_of_drop_cons hdrop)
  simp only [henc, Res.bind_ok,
    Tag.decode_encodeBytes .bitString 2 (by omega) _,
    ApplicationDataValue.decode, ApplicationDataValue.unwrapRes,
    BitString.decode, e0, e1, Res.bind_ok,
    BitString.decode_byte_flag_status, StatusFlagSet.new, if_pos hx]

theorem roundTrip_bitString_log (oid : ObjectId) (x : LogFlagSet)
    (hx : x.bits < 8) :
    roundTrip oid .propLogBuffer (.bitString (.logBufferResultFlags x))
      = .ok (.bitString (.logBufferResultFlags x)) := by
  unfold roundTrip
  have henc : ApplicationDataValue.encode
        (.bitString (.logBufferResultFlags x)) []
      = .ok (Tag.encodeBytes ⟨.application .bitString, 2⟩
          ++ [0, x.bits]) := by
    simp [ApplicationDataValue.encode, BitString.encode, Tag.encode, Tag.new]
  have hdrop : (Tag.encodeBytes ⟨.application .bitString, 2⟩
        ++ [0, x.bits]).drop
      (Tag.encodeBytes ⟨.application .bitString, 2⟩).length
      = 0 :: x.bits :: [] :=
    List.drop_left _ _
  have e0 := Reader.read_byte_cons hdrop
  have e1 := Reader.read_byte_cons (List.drop_succ_of_drop_cons hdrop)
  simp only [henc, Res.bind_ok,
    Tag.decode_encodeBytes .bitString 2 (by omega) _,
    ApplicationDataValue.decode, ApplicationDataValue.unwrapRes,
    BitString.decode, e0, e1, Res.bind_ok,
    BitString.decode_byte_flag_log, LogFlagSet.new, if_pos hx]

/-- For every property id other than status-flags and log-buffer,
`BitString::decode` takes the custom-bit-stream arm. -/
theorem BitString.decode_custom_arm (pid : PropertyId)
    (hp1 : pid ≠ .propStatusFlags) (hp2 : pid ≠ .propLogBuffer)
    (len : Nat) (r : Reader) (buf : List Nat) :
    BitString.decode pid len r buf
      = (r.read_byte buf).bind fun (u, r) =>
        (r.read_slice (u32SubOne len) buf).bind fun (bits, r) =>
        .ok (.custom ⟨u, bits⟩, r) := by
  cases pid <;> simp_all [BitString.decode]

/-- Encode-then-decode for a custom bit stream: whatever `unused_bits`
held, the decoded value carries `unused_bits = 0` (the encoder wrote a
literal `0`). -/
theorem roundTrip_bitString_custom (oid : ObjectId) (pid : PropertyId)
    (s : CustomBitStream) (hp1 : pid ≠ .propStatusFlags)
    (hp2 : pid ≠ .propLogBuffer)
    (hlen : s.bits.length + 1 < 4294967296) :
    roundTrip oid pid (.bitString (.custom s))
      = .ok (.bitString (.custom ⟨0, s.bits⟩)) := by
  unfold roundTrip
  have hlm : (s.bits.length + 1) % 4294967296 = s.bits.length + 1 :=
    Nat.mod_eq_of_lt hlen
  have henc : ApplicationDataValue.encode (.bitString (.custom s)) []
      = .ok (Tag.encodeBytes ⟨.application .bitString, s.bits.length + 1⟩
          ++ (0 :: s.bits)) := by
    simp [ApplicationDataValue.encode, BitString.encode, Tag.encode,
      Tag.new, hlm]
  have hdrop : (Tag.encodeBytes ⟨.application .bitString,
          s.bits.length + 1⟩ ++ (0 :: s.bits)).drop
      (Tag.encodeBytes ⟨.application .bitString, s.bits.length + 1⟩).length
      = 0 :: s.bits :=
    List.drop_left _ _
  have e0 := Reader.read_byte_cons hdrop
  have d0 : (Tag.encodeBytes ⟨.application .bitString,
          s.bits.length + 1⟩ ++ (0 :: s.bits)).drop
      ((Tag.encodeBytes ⟨.application .bitString,
          s.bits.length + 1⟩).length + 1)
      = s.bits ++ [] := by
    rw [List.drop_succ_of_drop_cons hdrop]
    simp
  have hsub : u32SubOne (s.bits.length + 1) = s.bits.length := by
    unfold u32SubOne
    omega
  have hlenbuf : (Tag.encodeBytes ⟨.application .bitString,
          s.bits.length + 1⟩).length + 1
      ≤ (Tag.encodeBytes ⟨.application .bitString,
          s.bits.length + 1⟩ ++ (0 :: s.bits)).length := by
    simp [List.length_append]
  have hslice := Reader.read_slice_spec d0 rfl hlenbuf
  simp only [henc, Res.bind_ok,
    Tag.decode_encodeBytes .bitString (s.bits.length + 1) (by omega) _,
    ApplicationDataValue.decode, ApplicationDataValue.unwrapRes,
    BitString.decode_custom_arm pid hp1 hp2, e0, Res.bind_ok, hsub,
    hslice]

/-! ## Value well-formedness and decode-context fit -/

/-- Well-formedness of an `ApplicationDataValue` as the Rust type system
guarantees it (field bounds), together with encodability: the `Double`
and `WeeklySchedule` variants hit `todo!()` in `encode`, and a custom
bit stream survives the trip only with `unused_bits = 0` (the encoder
writes a literal `0`). -/
def valueWf : ApplicationDataValue → Bool
  | .boolean _ => true
  | .real x => decide (x < 4294967296)
  | .double _ => false
  | .date d => decide (1900 ≤ d.year) && decide (d.year ≤ 2155) &&
      decide (d.month < 256) && decide (d.day < 256) &&
      decide (d.wday < 256)
  | .time t => decide (t.hour < 256) && decide (t.minute < 256) &&
      decide (t.second < 256) && decide (t.hundredths < 256)
  | .objectId o => decide (o.object_type.code < 1024) &&
      decide (o.id < 4194304)
  | .characterString c => utf8Valid c.inner &&
      decide (c.inner.length + 1 < 4294967296)
  | .enumerated (.units u) => decide (u.code ≤ 254)
  | .enumerated (.binary _) => true
  | .enumerated (.objectType t) => decide (t.code < 1024)
  | .enumerated (.eventState x) => decide (x.code ≤ 4)
  | .enumerated (.notifyType x) => decide (x.code ≤ 2)
  | .enumerated (.loggingType x) => decide (x.code ≤ 2)
  | .enumerated (.unknown u) => decide (u < 4294967296)
  | .bitString (.statusFlags s) => decide (s.bits < 16)
  | .bitString (.logBufferResultFlags s) => decide (s.bits < 8)
  | .bitString (.custom s) => decide (s.unused_bits = 0) &&
      decide (s.bits.length + 1 < 4294967296)
  | .unsignedInt x => decide (x < 4294967296)
  | .weeklySchedule _ => false

/-- "The same object-id/property-id context the value belongs to": the
request context under which the double dispatch of
`ApplicationDataValue::decode` re-selects this value's own variant. -/
def ctxFits : ApplicationDataValue → ObjectId → PropertyId → Bool
  | .enumerated (.units _), _, pid => decide (pid = .propUnits)
  | .enumerated (.binary _), oid, pid =>
      decide (pid = .propPresentValue) && oid.object_type.isBinary
  | .enumerated (.objectType _), _, pid => decide (pid = .propObjectType)
  | .enumerated (.eventState _), _, pid => decide (pid = .propEventState)
  | .enumerated (.notifyType _), _, pid => decide (pid = .propNotifyType)
  | .enumerated (.loggingType _), _, pid => decide (pid = .propLoggingType)
  | .enumerated (.unknown _), oid, pid => enumSelectsUnknown oid pid
  | .bitString (.statusFlags _), _, pid => decide (pid = .propStatusFlags)
  | .bitString (.logBufferResultFlags _), _, pid =>
      decide (pid = .propLogBuffer)
  | .bitString (.custom _), _, pid =>
      decide (pid ≠ .propStatusFlags) && decide (pid ≠ .propLogBuffer)
  | _, _, _ => true

/-! ## Claim C1 -/

/-- C1 (amended): for every well-formed value of a variant whose encode
path is implemented (every variant except double and weekly-schedule,
and custom bit streams restricted to `unused_bits = 0`), decoding the
bytes produced by encoding the value, with decode given the same
object-id/property-id context the value belongs to, yields the value
back. -/
theorem claim_C1_roundtrip (v : ApplicationDataValue) (oid : ObjectId)
    (pid : PropertyId) (hwf : valueWf v = true)
    (hctx : ctxFits v oid pid = true) :
    roundTrip oid pid v = .ok v := by
  cases v with
  | boolean b => exact roundTrip_boolean oid pid b
  | real x =>
    simp only [valueWf, decide_eq_true_eq] at hwf
    exact roundTrip_real oid pid x hwf
  | double x => simp [valueWf] at hwf
  | date d =>
    simp only [valueWf, Bool.and_eq_true, decide_eq_true_eq] at hwf
    exact roundTrip_date oid pid d hwf.1.1.1.1 hwf.1.1.1.2
  | time t => exact roundTrip_time oid pid t
  | objectId o =>
    simp only [valueWf, Bool.and_eq_true, decide_eq_true_eq] at hwf
    exact roundTrip_objectId oid pid o hwf.1 hwf.2
  | characterString s =>
    simp only [valueWf, Bool.and_eq_true, decide_eq_true_eq] at hwf
    exact roundTrip_characterString oid pid s hwf.1 hwf.2
  | enumerated e =>
    cases e with
    | units u =>
      simp only [valueWf, decide_eq_true_eq] at hwf
      simp only [ctxFits, decide_eq_true_eq] at hctx
      subst hctx
      exact roundTrip_enumerated_units oid u hwf
    | binary b =>
      simp only [ctxFits, Bool.and_eq_true, decide_eq_true_eq] at hctx
      obtain ⟨hpid, hbin⟩ := hctx
      subst hpid
      exact roundTrip_enumerated_binary oid hbin b
    | objectType t =>
      simp only [valueWf, decide_eq_true_eq] at hwf
      simp only [ctxFits, decide_eq_true_eq] at hctx
      subst hctx
      exact roundTrip_enumerated_objectType oid t hwf
    | eventState x =>
      simp only [valueWf, decide_eq_true_eq] at hwf
      simp only [ctxFits, decide_eq_true_eq] at hctx
      subst hctx
      exact roundTrip_enumerated_eventState oid x hwf
    | notifyType x =>
      simp only [valueWf, decide_eq_true_eq] at hwf
      simp only [ctxFits, decide_eq_true_eq] at hctx
      subst hctx
      exact roundTrip_enumerated_notifyType oid x hwf
    | loggingType x =>
      simp only [valueWf, decide_eq_true_eq] at hwf
      simp only [ctxFits, decide_eq_true_eq] at hctx
      subst hctx
      exact roundTrip_enumerated_loggingType oid x hwf
    | unknown u =>
      simp only [valueWf, decide_eq_true_eq] at hwf
      simp only [ctxFits] at hctx
      exact roundTrip_enumerated_unknown oid pid u hwf hctx
  | bitString b =>
    cases b with
    | statusFlags x =>
      simp only [valueWf, decide_eq_true_eq] at hwf
      simp only [ctxFits, decide_eq_true_eq] at hctx
      subst hctx
      exact roundTrip_bitString_status oid x hwf
    | logBufferResultFlags x =>
      simp only [valueWf, decide_eq_true_eq] at hwf
      simp only [ctxFits, decide_eq_true_eq] at hctx
      subst hctx
      exact roundTrip_bitString_log oid x hwf
    | custom s =>
      simp only [valueWf, Bool.and_eq_true, decide_eq_true_eq] at hwf
      simp only [ctxFits, Bool.and_eq_true, decide_eq_true_eq] at hctx
      obtain ⟨hu, hlen⟩ := hwf
      obtain ⟨hp1, hp2⟩ := hctx
      obtain ⟨u, bits⟩ := s
      simp only at hu
      subst hu
      exact roundTrip_bitString_custom oid pid ⟨0, bits⟩ hp1 hp2 hlen
  | unsignedInt x =>
    simp only [valueWf, decide_eq_true_eq] at hwf
    exact roundTrip_unsignedInt oid pid x hwf
  | weeklySchedule w => simp [valueWf] at hwf

/-- Witness for C1 (amended): a concrete round trip through a character
string under an arbitrary non-dispatching context. -/
theorem claim_C1_roundtrip_witness :
    roundTrip ⟨⟨8⟩, 79079⟩ (.other 0) (.characterString ⟨[104, 105]⟩)
      = .ok (.characterString ⟨[104, 105]⟩) :=
  claim_C1_roundtrip (.characterString ⟨[104, 105]⟩) ⟨⟨8⟩, 79079⟩
    (.other 0) (by decide) (by decide)

/-- C1 counterexample: the claim quantifies over the double variant too,
but `ApplicationDataValue::encode` hits `todo!()` on it, so the
encode-then-decode pipeline aborts instead of returning the value. -/
theorem claim_C1_counterexample :
    roundTrip ⟨⟨8⟩, 79079⟩ (.other 0) (.double 0)
        ≠ .ok (.double 0) ∧
    (roundTrip ⟨⟨8⟩, 79079⟩ (.other 0) (.double 0)).isPanic = true := by
  exact ⟨by decide, by decide⟩

/-! ## Claim C2 -/

theorem Res.isPanic_bind {x : Res α} (f : α → Res β)
    (h : x.isPanic = true) : (x.bind f).isPanic = true := by
  cases x <;> simp_all [Res.isPanic, Res.bind]

/-- C2 counterexample: `Time::decode` on an empty buffer (a proper
truncation of any valid 4-byte time encoding) panics in the reader's
bounds check; no typed error value is produced — the interface returns
the value directly and has no error channel. -/
theorem claim_C2_counterexample :
    (Time.decode ⟨0⟩ []).isErr = false ∧
    (Time.decode ⟨0⟩ []).isPanic = true := by
  exact ⟨by decide, by decide⟩

/-- C2 (amended): decoding from a buffer with fewer bytes than required
always aborts with a panic (the modelled reader's bounds check), never
returns a typed error and never reads past the end: this holds for
`Time::decode` and `Date::decode` on every buffer shorter than 4 bytes,
for `CharacterString::decode` on every buffer shorter than its declared
length, and propagates through `ApplicationDataValue::decode`. -/
theorem claim_C2_truncation :
    (∀ buf : List Nat, buf.length < 4 →
      (Time.decode ⟨0⟩ buf).isPanic = true ∧
      (Date.decode ⟨0⟩ buf).isPanic = true) ∧
    (∀ (len : Nat) (buf : List Nat), buf.length < len →
      (CharacterString.decode len ⟨0⟩ buf).isPanic = true) ∧
    (∀ (oid : ObjectId) (pid : PropertyId) (buf : List Nat),
      buf.length < 4 →
      (ApplicationDataValue.decode ⟨.application .time, 4⟩ oid pid ⟨0⟩
        buf).isPanic = true) := by
  have htime : ∀ buf : List Nat, buf.length < 4 →
      (Time.decode ⟨0⟩ buf).isPanic = true := by
    intro buf h
    rcases buf with _ | ⟨a, _ | ⟨b, _ | ⟨c, _ | ⟨d, tl⟩⟩⟩⟩
    · simp [Time.decode, Reader.read_byte, Res.isPanic]
    · simp [Time.decode, Reader.read_byte, Res.isPanic]
    · simp [Time.decode, Reader.read_byte, Res.isPanic]
    · simp [Time.decode, Reader.read_byte, Res.isPanic]
    · simp only [List.length_cons] at h
      omega
  refine ⟨fun buf h => ⟨htime buf h, ?_⟩, ?_, ?_⟩
  · rcases buf with _ | ⟨a, _ | ⟨b, _ | ⟨c, _ | ⟨d, tl⟩⟩⟩⟩
    · simp [Date.decode, Reader.read_bytes4, Res.isPanic]
    · simp [Date.decode, Reader.read_bytes4, Res.isPanic]
    · simp [Date.decode, Reader.read_bytes4, Res.isPanic]
    · simp [Date.decode, Reader.read_bytes4, Res.isPanic]
    · simp only [List.length_cons] at h
      omega
  · intro len buf h
    rcases buf with _ | ⟨a, rest⟩
    · have hlen : 0 < len := by simpa using h
      simp [CharacterString.decode, Reader.read_byte, Res.isPanic,
        Res.bind]
    · by_cases ha : a = 0
      · subst ha
        have h' : rest.length + 1 < len := by simpa using h
        have hcond : ¬ (1 + (len - 1) ≤ rest.length + 1) := by omega
        simp [CharacterString.decode, Reader.read_byte, Res.isPanic,
          Reader.read_slice, Res.bind, hcond]
      · simp [CharacterString.decode, Reader.read_byte, Res.isPanic, ha]
  · intro oid pid buf h
    have := htime buf h
    simp only [ApplicationDataValue.decode]
    rw [if_neg (by omega : ¬ (4 : Nat) ≠ 4)]
    exact Res.isPanic_bind _ this

/-- Witness for C2 (amended) at a concrete truncated buffer. -/
theorem claim_C2_truncation_witness :
    (Time.decode ⟨0⟩ [14, 30]).isPanic = true ∧
    (Date.decode ⟨0⟩ [124]).isPanic = true ∧
    (CharacterString.decode 3 ⟨0⟩ [0, 104]).isPanic = true := by
  refine ⟨(claim_C2_truncation.1 [14, 30] (by decide)).1,
    (claim_C2_truncation.1 [124] (by decide)).2,
    claim_C2_truncation.2.1 3 [0, 104] (by decide)⟩

/-! ## Claim C3 -/

/-- C3 counterexample: handed a context-specific (non-application) tag,
`ApplicationDataValue::decode` aborts (`panic!("application tag number
expected")`) — no typed error value is returned, and the interface (which
returns the value directly, not a `Result`) has no error channel. -/
theorem claim_C3_counterexample :
    (ApplicationDataValue.decode ⟨.contextSpecific 0, 1⟩ ⟨⟨8⟩, 1⟩
      (.other 0) ⟨0⟩ [0]).isErr = false ∧
    (ApplicationDataValue.decode ⟨.contextSpecific 0, 1⟩ ⟨⟨8⟩, 1⟩
      (.other 0) ⟨0⟩ [0]).isPanic = true := by
  exact ⟨by decide, by decide⟩

/-- C3 (amended): `ApplicationDataValue::decode` returns the value
directly (no `Result`), and each malformed or unsupported input class
aborts the process instead of surfacing a typed error: a non-application
tag panics; a Real tag whose length is not 4 fails its assertion; a
non-UTF-8 character-set selector hits `unimplemented!`; invalid UTF-8
content fails the `from_utf8` unwrap; an enumeration code outside the
selected interpretation's range fails the `try_into` unwrap; and an
application tag number with no decode arm hits `unimplemented!`. -/
theorem claim_C3_aborts :
    (∀ (n v : Nat) (oid : ObjectId) (pid : PropertyId) (r : Reader)
      (buf : List Nat),
      ApplicationDataValue.decode ⟨.contextSpecific n, v⟩ oid pid r buf
        = .panic "application tag number expected") ∧
    (∀ (v : Nat) (oid : ObjectId) (pid : PropertyId) (r : Reader)
      (buf : List Nat), v ≠ 4 →
      (ApplicationDataValue.decode ⟨.application .real, v⟩ oid pid r
        buf).isPanic = true) ∧
    (∀ (c len : Nat) (rest : List Nat) (oid : ObjectId)
      (pid : PropertyId), c ≠ 0 →
      (ApplicationDataValue.decode ⟨.application .characterString, len⟩
        oid pid ⟨0⟩ (c :: rest)).isPanic = true) ∧
    ((ApplicationDataValue.decode ⟨.application .characterString, 2⟩
      ⟨⟨8⟩, 1⟩ (.other 0) ⟨0⟩ [0, 255]).isPanic = true) ∧
    ((ApplicationDataValue.decode ⟨.application .enumerated, 1⟩
      ⟨⟨8⟩, 1⟩ .propUnits ⟨0⟩ [255]).isPanic = true) ∧
    (∀ (v : Nat) (oid : ObjectId) (pid : PropertyId) (r : Reader)
      (buf : List Nat),
      ApplicationDataValue.decode ⟨.application .null, v⟩ oid pid r buf
        = .panic "not implemented application tag") := by
  refine ⟨fun n v oid pid r buf => rfl, ?_, ?_, by decide, by decide,
    fun v oid pid r buf => rfl⟩
  · intro v oid pid r buf h
    simp [ApplicationDataValue.decode, h, Res.isPanic]
  · intro c len rest oid pid hc
    simp [ApplicationDataValue.decode, CharacterString.decode,
      Reader.read_byte, Res.bind, Res.isPanic, hc]

/-- Witness for C3 (amended) at concrete malformed inputs. -/
theorem claim_C3_aborts_witness :
    (ApplicationDataValue.decode ⟨.application .real, 2⟩ ⟨⟨8⟩, 1⟩
      (.other 0) ⟨0⟩ [0, 0]).isPanic = true ∧
    (ApplicationDataValue.decode ⟨.application .characterString, 2⟩
      ⟨⟨8⟩, 1⟩ (.other 0) ⟨0⟩ [1, 65]).isPanic = true := by
  refine ⟨claim_C3_aborts.2.1 2 ⟨⟨8⟩, 1⟩ (.other 0) ⟨0⟩ [0, 0]
      (by decide),
    claim_C3_aborts.2.2.1 1 2 [65] ⟨⟨8⟩, 1⟩ (.other 0) (by decide)⟩

/-! ## Claim C4 -/

theorem Binary.tryFrom_none {c : Nat} (h : 2 ≤ c) :
    Binary.tryFrom c = none := by
  match c, h with
  | n + 2, _ => rfl

/-- C4 counterexample: decoding an Enumerated tag under property-id
present-value against a binary-input object with the out-of-range code 2
panics in the `try_into().unwrap()` — it does not return the Unknown
passthrough variant (nor anything else). -/
theorem claim_C4_counterexample :
    (ApplicationDataValue.decode ⟨.application .enumerated, 1⟩
        ⟨ObjectType.objectBinaryInput, 1⟩ .propPresentValue ⟨0⟩ [2])
      ≠ .ok (.enumerated (.unknown 2), ⟨1⟩) ∧
    (ApplicationDataValue.decode ⟨.application .enumerated, 1⟩
      ⟨ObjectType.objectBinaryInput, 1⟩ .propPresentValue ⟨0⟩
      [2]).isPanic = true := by
  exact ⟨by decide, by decide⟩

/-- C4 (amended): decoding an Enumerated application tag dispatches on
the request context — present-value on a binary object type yields the
Binary variant and units yields the Units variant, both for codes inside
the interpretation's legal range; a code outside the selected
interpretation's range panics in the unwrap (it is not turned into
Unknown); the Unknown passthrough is produced exactly when the context
selects no interpretation. -/
theorem claim_C4_dispatch :
    (∀ (oid : ObjectId), oid.object_type.isBinary = true → ∀ b : Binary,
      ApplicationDataValue.decode ⟨.application .enumerated, 1⟩ oid
          .propPresentValue ⟨0⟩ [b.toCode]
        = .ok (.enumerated (.binary b), ⟨1⟩)) ∧
    (∀ (oid : ObjectId) (c : Nat), c ≤ 254 →
      ApplicationDataValue.decode ⟨.application .enumerated, 1⟩ oid
          .propUnits ⟨0⟩ [c]
        = .ok (.enumerated (.units ⟨c⟩), ⟨1⟩)) ∧
    (∀ (oid : ObjectId), oid.object_type.isBinary = true →
      ∀ c : Nat, 2 ≤ c → c < 256 →
      (ApplicationDataValue.decode ⟨.application .enumerated, 1⟩ oid
        .propPresentValue ⟨0⟩ [c]).isPanic = true) ∧
    (∀ (oid : ObjectId) (pid : PropertyId) (c : Nat), c < 256 →
      enumSelectsUnknown oid pid = true →
      ApplicationDataValue.decode ⟨.application .enumerated, 1⟩ oid
          pid ⟨0⟩ [c]
        = .ok (.enumerated (.unknown c), ⟨1⟩)) := by
  refine ⟨?_, ?_, ?_, ?_⟩
  · intro oid hbin b
    cases b <;>
      simp [ApplicationDataValue.decode, decode_unsigned,
        Reader.read_byte, hbin, Binary.toCode, Binary.tryFrom,
        ApplicationDataValue.unwrapOption]
  · intro oid c hc
    have hm : c % 4294967296 = c := Nat.mod_eq_of_lt (by omega)
    simp [ApplicationDataValue.decode, decode_unsigned,
      Reader.read_byte, hm, EngineeringUnits.tryFrom, hc,
      ApplicationDataValue.unwrapOption]
  · intro oid hbin c h2 h256
    have hm : c % 4294967296 = c := Nat.mod_eq_of_lt (by omega)
    simp [ApplicationDataValue.decode, decode_unsigned,
      Reader.read_byte, hm, hbin, Binary.tryFrom_none h2,
      ApplicationDataValue.unwrapOption, Res.bind, Res.isPanic]
  · intro oid pid c hc hd
    have hm : c % 4294967296 = c := Nat.mod_eq_of_lt (by omega)
    cases pid <;>
      simp_all [ApplicationDataValue.decode, decode_unsigned,
        Reader.read_byte, enumSelectsUnknown, Bool.not_eq_true']

/-- Witness for C4 (amended) at concrete codes and contexts. -/
theorem claim_C4_dispatch_witness :
    ApplicationDataValue.decode ⟨.application .enumerated, 1⟩
        ⟨ObjectType.objectBinaryInput, 5⟩ .propPresentValue ⟨0⟩ [1]
      = .ok (.enumerated (.binary .active), ⟨1⟩) ∧
    ApplicationDataValue.decode ⟨.application .enumerated, 1⟩
        ⟨⟨8⟩, 1⟩ .propUnits ⟨0⟩ [62]
      = .ok (.enumerated (.units ⟨62⟩), ⟨1⟩) ∧
    (ApplicationDataValue.decode ⟨.application .enumerated, 1⟩
      ⟨ObjectType.objectBinaryValue, 2⟩ .propPresentValue ⟨0⟩
      [7]).isPanic = true ∧
    ApplicationDataValue.decode ⟨.application .enumerated, 1⟩
        ⟨⟨0⟩, 3⟩ .propPresentValue ⟨0⟩ [9]
      = .ok (.enumerated (.unknown 9), ⟨1⟩) := by
  refine ⟨claim_C4_dispatch.1 ⟨ObjectType.objectBinaryInput, 5⟩
      (by decide) .active,
    claim_C4_dispatch.2.1 ⟨⟨8⟩, 1⟩ 62 (by decide),
    claim_C4_dispatch.2.2.1 ⟨ObjectType.objectBinaryValue, 2⟩ (by decide)
      7 (by decide) (by decide),
    claim_C4_dispatch.2.2.2 ⟨⟨0⟩, 3⟩ .propPresentValue 9 (by decide)
      (by decide)⟩

/-! ## Claim C5 -/

/-- C5 counterexample: the UnsignedInt application value does not use the
minimal length — encoding the value 0 produces a tag whose length field
is 4 (`0x24 = 36`) followed by four content bytes, where the claim
demands one content byte (`get_len_u32 0 = 1`). -/
theorem claim_C5_counterexample :
    ApplicationDataValue.encode (.unsignedInt 0) [] = .ok [36, 0, 0, 0, 0]
      ∧ get_len_u32 0 = 1 := by
  exact ⟨by decide, by decide⟩

/-- C5 (amended): the integer carried by an Enumerated value is encoded
at the narrowest big-endian length that fits (`get_len_u32`, with
0 → 1 byte, 255 → 1, 256 → 2, 16777215 → 3, 16777216 → 4), and decoding
each declared minimal length recovers the exact value; the UnsignedInt
application value, however, always encodes with length 4 regardless of
magnitude. -/
theorem claim_C5_minimal_length :
    (∀ e : Enumerated, ApplicationDataValue.encode (.enumerated e) []
      = .ok (Tag.encodeBytes
            ⟨.application .enumerated, get_len_u32 e.toU32⟩
          ++ encode_unsigned (get_len_u32 e.toU32) e.toU32)) ∧
    (∀ v : Nat, (encode_unsigned (get_len_u32 v) v).length
      = get_len_u32 v) ∧
    (get_len_u32 0 = 1 ∧ get_len_u32 255 = 1 ∧ get_len_u32 256 = 2 ∧
      get_len_u32 16777215 = 3 ∧ get_len_u32 16777216 = 4) ∧
    (∀ v : Nat, v < 4294967296 →
      decode_unsigned (get_len_u32 v) ⟨0⟩
          (encode_unsigned (get_len_u32 v) v)
        = .ok (v, ⟨get_len_u32 v⟩)) ∧
    (∀ x : Nat, ApplicationDataValue.encode (.unsignedInt x) []
        = .ok (Tag.encodeBytes ⟨.application .unsignedInt, 4⟩
          ++ beBytes4 (x % 4294967296)) ∧
      (beBytes4 (x % 4294967296)).length = 4) := by
  refine ⟨fun e => Enumerated.encode_eq e, ?_, by decide, ?_, ?_⟩
  · intro v
    unfold get_len_u32
    split_ifs <;> simp [encode_unsigned]
  · intro v hv
    have h := @decode_unsigned_encode
      (encode_unsigned (get_len_u32 v) v) [] 0 v hv (by simp)
    simpa using h
  · intro x
    constructor
    · simp [ApplicationDataValue.encode, Tag.encode, Tag.new]
    · simp [beBytes4]

/-- Witness for C5 (amended): minimal-length decode recovery at the
boundary value 256. -/
theorem claim_C5_minimal_length_witness :
    decode_unsigned (get_len_u32 256) ⟨0⟩
        (encode_unsigned (get_len_u32 256) 256)
      = .ok (256, ⟨get_len_u32 256⟩) :=
  claim_C5_minimal_length.2.2.2.1 256 (by decide)

/-! ## Claim C6 -/

/-- C6: the Date codec stores the year as a one-byte offset from 1900 —
stored byte 0 decodes to year 1900 and byte 255 to year 2155; encoding
years 1900 and 2155 stores bytes 0 and 255; and the wildcard byte 255
round-trips through decode-then-encode unchanged (there is no rejection
path: both functions are total on these inputs). -/
theorem claim_C6_date_year (m d w : Nat) :
    (Date.decode_inner 0 m d w).year = 1900 ∧
    (Date.decode_inner 255 m d w).year = 2155 ∧
    (∀ dt : Date, dt.year = 1900 →
      Date.encode dt [] = [0, dt.month, dt.day, dt.wday]) ∧
    (∀ dt : Date, dt.year = 2155 →
      Date.encode dt [] = [255, dt.month, dt.day, dt.wday]) ∧
    Date.encode (Date.decode_inner 255 m d w) [] = [255, m, d, w] := by
  refine ⟨rfl, rfl, ?_, ?_, ?_⟩
  · intro dt h
    have h0 : (dt.year + 65536 - 1900) % 65536 % 256 = 0 := by omega
    unfold Date.encode
    rw [List.nil_append, h0]
  · intro dt h
    have h0 : (dt.year + 65536 - 1900) % 65536 % 256 = 255 := by omega
    unfold Date.encode
    rw [List.nil_append, h0]
  · show ([] : List Nat)
        ++ [(255 + 1900 + 65536 - 1900) % 65536 % 256, m, d, w]
      = [255, m, d, w]
    have h0 : (255 + 1900 + 65536 - 1900) % 65536 % 256 = 255 := by omega
    rw [List.nil_append, h0]

/-- Witness for C6 at a concrete date. -/
theorem claim_C6_date_year_witness :
    (Date.decode_inner 0 1 15 1).year = 1900 ∧
    Date.encode ⟨1900, 1, 15, 1⟩ [] = [0, 1, 15, 1] ∧
    Date.encode (Date.decode_inner 255 1 15 1) [] = [255, 1, 15, 1] :=
  ⟨(claim_C6_date_year 1 15 1).1,
    (claim_C6_date_year 1 15 1).2.2.1 ⟨1900, 1, 15, 1⟩ rfl,
    (claim_C6_date_year 1 15 1).2.2.2.2⟩

/-! ## Claim C7 -/

/-- C7: for booleans the tag's length/value field is the value itself —
encoding `Boolean b` emits exactly the Boolean application tag with
length/value 1 for true and 0 for false and no content bytes (the output
is the tag header alone), and decoding a Boolean tag consumes nothing
from the reader and yields true exactly when the tag's value field is
nonzero. -/
theorem claim_C7_boolean :
    (∀ b : Bool, ApplicationDataValue.encode (.boolean b) []
      = .ok (Tag.encodeBytes
          ⟨.application .boolean, if b then 1 else 0⟩)) ∧
    (∀ (v : Nat) (oid : ObjectId) (pid : PropertyId) (r : Reader)
      (buf : List Nat),
      ApplicationDataValue.decode ⟨.application .boolean, v⟩ oid pid r buf
        = .ok (.boolean (decide (0 < v)), r)) := by
  constructor
  · intro b
    cases b <;> rfl
  · intro v oid pid r buf
    rfl

/-! ## Claim C8 -/

/-- C8: `BitString::decode` reads the unused-bit-count byte first and
then dispatches on the property id — status-flags yields the StatusFlags
variant, log-buffer yields the LogBufferResultFlags variant, and every
other property id yields the Custom variant holding the remaining
`len - 1` bytes; a flag byte with bits outside the legal flag set makes
decode return the `InvalidValue` typed error. -/
theorem claim_C8_bitstring_dispatch :
    (∀ (u bits len : Nat) (rest : List Nat), bits < 16 →
      BitString.decode .propStatusFlags len ⟨0⟩ (u :: bits :: rest)
        = .ok (.statusFlags ⟨bits⟩, ⟨2⟩)) ∧
    (∀ (u bits len : Nat) (rest : List Nat), bits < 8 →
      BitString.decode .propLogBuffer len ⟨0⟩ (u :: bits :: rest)
        = .ok (.logBufferResultFlags ⟨bits⟩, ⟨2⟩)) ∧
    (∀ (pid : PropertyId), pid ≠ .propStatusFlags →
      pid ≠ .propLogBuffer → ∀ (u : Nat) (bits : List Nat),
      bits.length < 4294967295 →
      BitString.decode pid (bits.length + 1) ⟨0⟩ (u :: bits)
        = .ok (.custom ⟨u, bits⟩, ⟨1 + bits.length⟩)) ∧
    (∀ (u bits len : Nat) (rest : List Nat), 16 ≤ bits →
      BitString.decode .propStatusFlags len ⟨0⟩ (u :: bits :: rest)
        = .err (.invalidValue "invalid flag bitstream")) ∧
    (∀ (u bits len : Nat) (rest : List Nat), 8 ≤ bits →
      BitString.decode .propLogBuffer len ⟨0⟩ (u :: bits :: rest)
        = .err (.invalidValue "invalid flag bitstream")) := by
  refine ⟨?_, ?_, ?_, ?_, ?_⟩
  · intro u bits len rest hb
    simp [BitString.decode, Reader.read_byte,
      BitString.decode_byte_flag_status, StatusFlagSet.new, hb]
  · intro u bits len rest hb
    simp [BitString.decode, Reader.read_byte,
      BitString.decode_byte_flag_log, LogFlagSet.new, hb]
  · intro pid hp1 hp2 u bits hlen
    rw [BitString.decode_custom_arm pid hp1 hp2]
    have e0 : Reader.read_byte ⟨0⟩ (u :: bits) = .ok (u, ⟨1⟩) :=
      Reader.read_byte_cons rfl
    have hsub : u32SubOne (bits.length + 1) = bits.length := by
      unfold u32SubOne
      omega
    have hslice : Reader.read_slice ⟨1⟩ bits.length (u :: bits)
        = .ok (bits, ⟨1 + bits.length⟩) := by
      refine @Reader.read_slice_spec (u :: bits) bits [] 1 bits.length
        ?_ rfl (by simp)
      simp
    simp only [e0, Res.bind_ok, hsub, hslice]
  · intro u bits len rest hb
    have hb' : ¬ bits < 16 := by omega
    simp [BitString.decode, Reader.read_byte,
      BitString.decode_byte_flag_status, StatusFlagSet.new, hb', Res.bind]
  · intro u bits len rest hb
    have hb' : ¬ bits < 8 := by omega
    simp [BitString.decode, Reader.read_byte,
      BitString.decode_byte_flag_log, LogFlagSet.new, hb', Res.bind]

/-- Witness for C8 at concrete flag bytes and a concrete custom stream. -/
theorem claim_C8_bitstring_dispatch_witness :
    BitString.decode .propStatusFlags 2 ⟨0⟩ [0, 5]
      = .ok (.statusFlags ⟨5⟩, ⟨2⟩) ∧
    BitString.decode .propLogBuffer 2 ⟨0⟩ [0, 3]
      = .ok (.logBufferResultFlags ⟨3⟩, ⟨2⟩) ∧
    BitString.decode (.other 0) 3 ⟨0⟩ [4, 7, 9]
      = .ok (.custom ⟨4, [7, 9]⟩, ⟨3⟩) ∧
    BitString.decode .propStatusFlags 2 ⟨0⟩ [0, 200]
      = .err (.invalidValue "invalid flag bitstream") := by
  refine ⟨claim_C8_bitstring_dispatch.1 0 5 2 [] (by decide),
    claim_C8_bitstring_dispatch.2.1 0 3 2 [] (by decide),
    claim_C8_bitstring_dispatch.2.2.1 (.other 0) (by decide) (by decide)
      4 [7, 9] (by decide),
    claim_C8_bitstring_dispatch.2.2.2.1 0 200 2 [] (by decide)⟩

/-! ## Claim C9 -/

/-- C9: `BitString::encode` writes a literal 0 as the unused-bit-count
byte for every variant — including Custom streams whose own
`unused_bits` field is nonzero — so for every custom stream with
`unused_bits ≠ 0`, decoding its own encoding yields a Custom value with
`unused_bits = 0`, which differs from the original: the unused-bit count
is not preserved by the encode-then-decode round trip. -/
theorem claim_C9_unused_bits_lost :
    (∀ x : StatusFlagSet, BitString.encode (.statusFlags x) []
      = Tag.encodeBytes ⟨.application .bitString, 2⟩ ++ [0, x.bits]) ∧
    (∀ x : LogFlagSet, BitString.encode (.logBufferResultFlags x) []
      = Tag.encodeBytes ⟨.application .bitString, 2⟩ ++ [0, x.bits]) ∧
    (∀ s : CustomBitStream, BitString.encode (.custom s) []
      = Tag.encodeBytes ⟨.application .bitString,
          (s.bits.length + 1) % 4294967296⟩ ++ (0 :: s.bits)) ∧
    (∀ (oid : ObjectId) (pid : PropertyId) (s : CustomBitStream),
      pid ≠ .propStatusFlags → pid ≠ .propLogBuffer →
      s.unused_bits ≠ 0 → s.bits.length + 1 < 4294967296 →
      roundTrip oid pid (.bitString (.custom s))
        = .ok (.bitString (.custom ⟨0, s.bits⟩)) ∧
      (.bitString (.custom ⟨0, s.bits⟩) : ApplicationDataValue)
        ≠ .bitString (.custom s)) := by
  refine ⟨?_, ?_, ?_, ?_⟩
  · intro x
    simp [BitString.encode, Tag.encode, Tag.new]
  · intro x
    simp [BitString.encode, Tag.encode, Tag.new]
  · intro s
    simp [BitString.encode, Tag.encode, Tag.new]
  · intro oid pid s hp1 hp2 hu hlen
    refine ⟨roundTrip_bitString_custom oid pid s hp1 hp2 hlen, ?_⟩
    intro h
    simp only [ApplicationDataValue.bitString.injEq,
      BitString.custom.injEq] at h
    have : s.unused_bits = 0 := by
      have h2 := congrArg CustomBitStream.unused_bits h
      simpa using h2.symm
    exact hu this

/-- Witness for C9: a concrete custom stream with `unused_bits = 3`
comes back with `unused_bits = 0`. -/
theorem claim_C9_unused_bits_lost_witness :
    roundTrip ⟨⟨8⟩, 1⟩ (.other 0) (.bitString (.custom ⟨3, [7, 9]⟩))
      = .ok (.bitString (.custom ⟨0, [7, 9]⟩)) ∧
    (.bitString (.custom ⟨0, [7, 9]⟩) : ApplicationDataValue)
      ≠ .bitString (.custom ⟨3, [7, 9]⟩) :=
  claim_C9_unused_bits_lost.2.2.2 ⟨⟨8⟩, 1⟩ (.other 0) ⟨3, [7, 9]⟩
    (by decide) (by decide) (by decide) (by decide)

/-! ## Claim C10 -/

/-- C10: with a declared length of 0 and a property id outside the two
flag interpretations, `BitString::decode` reads the unused-bit byte and
then computes `len - 1` on the `u32` length, which wraps to `2^32 - 1`;
the custom arm thus requests a slice far past any real buffer and the
read aborts (a panic, not a typed error). -/
theorem claim_C10_len_zero_underflow :
    u32SubOne 0 = 4294967295 ∧
    BitString.decode (.other 0) 0 ⟨0⟩ [0]
      = .panic "read_slice: past end of buffer" ∧
    (BitString.decode (.other 0) 0 ⟨0⟩ [0]).isErr = false ∧
    (∀ (n u : Nat) (buf : List Nat), buf.length < 4294967295 →
      (BitString.decode (.other n) 0 ⟨0⟩ (u :: buf)).isPanic = true) := by
  refine ⟨by decide, by decide, by decide, ?_⟩
  intro n u buf hlen
  rw [BitString.decode_custom_arm (.other n) (by simp) (by simp)]
  have e0 : Reader.read_byte ⟨0⟩ (u :: buf) = .ok (u, ⟨1⟩) :=
    Reader.read_byte_cons rfl
  have hsub : u32SubOne 0 = 4294967295 := by decide
  have hc : ¬ ((⟨1⟩ : Reader).index + u32SubOne 0 ≤ (u :: buf).length) := by
    show ¬ (1 + u32SubOne 0 ≤ buf.length + 1)
    rw [hsub]
    omega
  have hslice : Reader.read_slice ⟨1⟩ (u32SubOne 0) (u :: buf)
      = .panic "read_slice: past end of buffer" := by
    unfold Reader.read_slice
    rw [if_neg hc]
  simp only [e0, Res.bind_ok, hslice, Res.bind_panic, Res.isPanic]

/-- Witness for C10's universal part at a concrete one-byte buffer. -/
theorem claim_C10_len_zero_underflow_witness :
    (BitString.decode (.other 5) 0 ⟨0⟩ [0, 0]).isPanic = true :=
  claim_C10_len_zero_underflow.2.2.2 5 0 [0] (by decide)
